import Mathlib

/-!
# Directory monitor (`src/api/dirmonitor.c`, `dirmonitor/inotify.c`, `dirmonitor/win32.c`)

A shallow embedding of the directory-change monitor: the backend registry, the
foreground `check` poll with its per-cycle callback, one iteration of the collection
thread, `watch` / `unwatch`, and the record translation of the inotify and win32
backends.

Conventions of the embedding.

* A `char` buffer is the list of its bytes (`Bytes`); a read at an offset past the end of
  the list is a `Fault`, so that every read of the translation loops is bounds-checked by
  the model. The list is the memory a statement lets the code read: the whole buffer
  object (a read past it is undefined behaviour in C), or just the counted bytes when the
  reads are to be bounded by the byte count.
* C `int` values are `Int`, pointers and handles are `Nat` with `0` for `NULL`; integers
  in the buffer are little-endian, cursors are offsets that do not wrap.
* Arguments are taken to have the types the Lua entry points check (`luaL_checkudata`,
  `luaL_checktype`, `luaL_checkstring`), so these checks raise nothing.
* The `lua_State` keeps what the C code touches: the table at stack index 4 (the handles
  already notified), the state of the host program, and a log of the arguments with which
  the function at stack index 2 was called.
* A value produced by the operating system (the result of `read`, `CreateFileA`,
  `SDL_CreateThread`, ...) is an argument of the embedded function.
* Loops run on a fuel argument; the entry points pass the byte count as fuel, which is
  proved to be enough (`Fault.out_of_fuel` is never returned).
-/

namespace Dirmonitor

/-! ## Memory -/

/-- The bytes of a C `char` buffer. -/
abbrev Bytes := List Nat

/-- Why a run of embedded C code did not return. -/
inductive Fault where
  /-- a read at `offset`, which is outside the buffer object -/
  | out_of_bounds (offset : Nat)
  /-- the loop was cut by the model's fuel -/
  | out_of_fuel
  deriving DecidableEq, Repr

/-- One `char` read at `offset`. -/
def read_u8 (buffer : Bytes) (offset : Nat) : Except Fault Nat :=
  match buffer[offset]? with
  | some b => .ok (b % 256)
  | none => .error (.out_of_bounds offset)

/-- A little-endian 32-bit unsigned read (`uint32_t`, `DWORD`). -/
def read_u32 (buffer : Bytes) (offset : Nat) : Except Fault Nat := do
  let b0 ← read_u8 buffer offset
  let b1 ← read_u8 buffer (offset + 1)
  let b2 ← read_u8 buffer (offset + 2)
  let b3 ← read_u8 buffer (offset + 3)
  pure (b0 + 256 * b1 + 65536 * b2 + 16777216 * b3)

/-- A little-endian 32-bit two's complement read (`int`). -/
def read_i32 (buffer : Bytes) (offset : Nat) : Except Fault Int := do
  let u ← read_u32 buffer offset
  pure (if u < 2147483648 then (u : Int) else (u : Int) - 4294967296)

/-- The `count` 16-bit little-endian units (`WCHAR`) starting at `offset`. -/
def read_wchars (buffer : Bytes) (offset : Nat) : Nat → Except Fault (List Nat)
  | 0 => pure []
  | count + 1 => do
    let lo ← read_u8 buffer offset
    let hi ← read_u8 buffer (offset + 1)
    let rest ← read_wchars buffer (offset + 2) count
    pure ((lo + 256 * hi) :: rest)

/-! ## The Lua side of `check` -/

/-- What `f_check_dir_callback` pushes as the argument of the host callback. -/
inductive lua_Value where
  /-- `lua_pushnumber(L, watch_id)` -/
  | number (n : Int)
  /-- `lua_pushlstring(L, path, watch_id)` -/
  | string (s : Bytes)
  deriving DecidableEq, Repr

/-- How `lua_pcall(L, 1, 1, 3)` of the host callback ended. -/
inductive pcall_status where
  /-- `LUA_OK`, with `lua_toboolean` of the value the callback returned -/
  | ok (truthy : Bool)
  /-- any other status: the callback raised, the handler at index 3 has run -/
  | error
  deriving DecidableEq, Repr

/-- The host function at stack index 2 (with the error handler at index 3), acting on the
host program's state `H`. -/
abbrev host_callback (H : Type) := H → lua_Value → H × pcall_status

/-- The part of the Lua state that `f_dirmonitor_check` and its callback use. -/
structure lua_State (H : Type) where
  /-- state of the host program, changed only by the host callback -/
  host : H
  /-- keys of the table at stack index 4 (each maps to `true`) -/
  notified : List Int
  /-- arguments of the calls of the function at stack index 2, oldest first -/
  calls : List lua_Value

/-- The type of `change_callback`, with its `void* data` threaded as state. -/
abbrev change_callback_t (σ : Type) := Int → Option Bytes → σ → σ × Int

/-- `f_check_dir_callback` (dirmonitor.c:57-82): the Lua state afterwards and the returned
status. With a `path`, `watch_id` is its byte count and is never negative. -/
def f_check_dir_callback {H : Type} (callback : host_callback H)
    (watch_id : Int) (path : Option Bytes) (L : lua_State H) : lua_State H × Int :=
  -- lua_rawgeti(L, 4, watch_id); skip = !lua_isnoneornil(L, -1)
  let skip : Bool := decide (watch_id ∈ L.notified)
  if skip then (L, 0)
  else
    -- lua_pushboolean(L, true); lua_rawseti(L, 4, watch_id)
    let L1 : lua_State H := { L with notified := watch_id :: L.notified }
    let arg : lua_Value :=
      match path with
      | some p => lua_Value.string (p.take watch_id.toNat)
      | none => lua_Value.number watch_id
    let r := callback L1.host arg
    let result : Bool :=
      match r.2 with
      | pcall_status.ok b => b
      | pcall_status.error => false
    ({ L1 with host := r.1, calls := L1.calls ++ [arg] }, if result then 0 else 1)

/-! ## The inotify backend -/

namespace inotify

/-- The constant `sizeof(struct inotify_event)`: `int wd`, `uint32_t mask`,
`uint32_t cookie`, `uint32_t len`, then `len` bytes of name. -/
def sizeof_inotify_event : Nat := 16

/-- The `for` loop of `translate_changes_dirmonitor` (inotify.c:42-43); `info` is the
offset of the cursor in `buffer`. -/
def translate_loop {σ : Type} (buffer : Bytes) (length : Int)
    (change_callback : change_callback_t σ) : Nat → Nat → σ → Except Fault σ
  | 0, info, data =>
    if (info : Int) < length then .error .out_of_fuel else .ok data
  | fuel + 1, info, data =>
    if (info : Int) < length then
      match read_i32 buffer info with
      | .error e => .error e
      | .ok wd =>
        translate_loop buffer length change_callback fuel (info + sizeof_inotify_event)
          (change_callback wd none data).1
    else .ok data

/-- `translate_changes_dirmonitor` (inotify.c:41-45): the final `data` and the returned
status. -/
def translate_changes_dirmonitor {σ : Type} (buffer : Bytes) (length : Int)
    (change_callback : change_callback_t σ) (data : σ) : Except Fault (σ × Int) :=
  match translate_loop buffer length change_callback length.toNat 0 data with
  | .error e => .error e
  | .ok data1 => .ok (data1, 0)

/-- `get_changes_dirmonitor` (inotify.c:34-38): `poll`, then the result of
`read(monitor->fd, buffer, length)`, given as `read_result`. -/
def get_changes_dirmonitor (read_result : Int) : Int := read_result

/-- The `struct dirmonitor_internal` of inotify.c. -/
structure dirmonitor_internal where
  fd : Int
  sig0 : Int
  sig1 : Int
  deriving DecidableEq, Repr

/-- `add_dirmonitor` (inotify.c:48-50): the result of `inotify_add_watch`, given as
`inotify_add_watch_result`. -/
def add_dirmonitor (inotify_add_watch_result : Int) : Int := inotify_add_watch_result

/-- The system call by which inotify.c cancels a watch. -/
inductive os_call where
  | inotify_rm_watch (fd : Int) (wd : Int)
  deriving DecidableEq, Repr

/-- `remove_dirmonitor` (inotify.c:53-55), with the system call it makes; the result of
the call is ignored. -/
def remove_dirmonitor (monitor : dirmonitor_internal) (fd : Int) :
    dirmonitor_internal × List os_call :=
  (monitor, [os_call.inotify_rm_watch monitor.fd fd])

/-- `get_mode_dirmonitor` (inotify.c:58). -/
def get_mode_dirmonitor : Int := 2

end inotify

/-! ## The win32 backend -/

namespace win32

/-- The constant `MAX_PATH` of `windows.h`. -/
def MAX_PATH : Nat := 260

/-- The constant `INVALID_HANDLE_VALUE` of `windows.h`, `(HANDLE)-1` on a 64-bit target. -/
def INVALID_HANDLE_VALUE : Nat := 18446744073709551615

/-- The `struct dirmonitor_internal` of win32.c; `handle = 0` is `NULL`. -/
structure dirmonitor_internal where
  handle : Nat
  deriving DecidableEq, Repr

/-- The system calls by which win32.c releases a directory handle. -/
inductive os_call where
  | CancelIoEx (handle : Nat)
  | CloseHandle (handle : Nat)
  deriving DecidableEq, Repr

/-- The `for` loop of `translate_changes_dirmonitor` (win32.c:44-50) over
`FILE_NOTIFY_INFORMATION` records (`DWORD NextEntryOffset`, `DWORD Action`,
`DWORD FileNameLength`, `WCHAR FileName[]`); `info` is the offset of the cursor.
`WideCharToMultiByte units cb` stands for the system conversion to UTF-8 with an output
limit of `cb` bytes: it gives the bytes written to `transform_buffer`, whose number is the
returned count (none on failure). -/
def translate_loop {σ : Type} (WideCharToMultiByte : List Nat → Nat → Bytes)
    (buffer : Bytes) (buffer_size : Int) (change_callback : change_callback_t σ) :
    Nat → Nat → σ → Except Fault σ
  | 0, info, data =>
    if (info : Int) < buffer_size then .error .out_of_fuel else .ok data
  | fuel + 1, info, data =>
    if (info : Int) < buffer_size then
      match read_u32 buffer (info + 8) with
      | .error e => .error e
      | .ok FileNameLength =>
        match read_wchars buffer (info + 12) (FileNameLength / 2) with
        | .error e => .error e
        | .ok FileName =>
          let transform_buffer := WideCharToMultiByte FileName (MAX_PATH * 4 - 1)
          let count : Int := (transform_buffer.length : Int)
          let data1 := (change_callback count (some transform_buffer) data).1
          match read_u32 buffer info with
          | .error e => .error e
          | .ok NextEntryOffset =>
            if NextEntryOffset = 0 then .ok data1
            else
              translate_loop WideCharToMultiByte buffer buffer_size change_callback fuel
                (info + NextEntryOffset) data1
    else .ok data

/-- `translate_changes_dirmonitor` (win32.c:43-52): the final `data` and the returned
status. -/
def translate_changes_dirmonitor {σ : Type} (WideCharToMultiByte : List Nat → Nat → Bytes)
    (buffer : Bytes) (buffer_size : Int) (change_callback : change_callback_t σ) (data : σ) :
    Except Fault (σ × Int) :=
  match translate_loop WideCharToMultiByte buffer buffer_size change_callback
      buffer_size.toNat 0 data with
  | .error e => .error e
  | .ok data1 => .ok (data1, 0)

/-- `get_changes_dirmonitor` (win32.c:11-20); `ReadDirectoryChangesW_result` and
`bytes_transferred` are what the system call gives when it is made. -/
def get_changes_dirmonitor (monitor : dirmonitor_internal)
    (ReadDirectoryChangesW_result : Int) (bytes_transferred : Nat) : Int :=
  if monitor.handle ≠ 0 ∧ monitor.handle ≠ INVALID_HANDLE_VALUE then
    if ReadDirectoryChangesW_result = 0 then 0 else (bytes_transferred : Int)
  else 0

/-- `close_monitor_handle` (win32.c:28-35), with the system calls it makes. -/
def close_monitor_handle (monitor : dirmonitor_internal) :
    dirmonitor_internal × List os_call :=
  if monitor.handle ≠ 0 ∧ monitor.handle ≠ INVALID_HANDLE_VALUE then
    ({ monitor with handle := 0 },
      [os_call.CancelIoEx monitor.handle, os_call.CloseHandle monitor.handle])
  else (monitor, [])

/-- `add_dirmonitor` (win32.c:55-59); `CreateFileA_result` is the handle the system call
gives. The result is the new state, the system calls made to close the previous handle,
and the returned watch handle. -/
def add_dirmonitor (monitor : dirmonitor_internal) (CreateFileA_result : Nat) :
    dirmonitor_internal × List os_call × Int :=
  let closed := close_monitor_handle monitor
  let monitor1 : dirmonitor_internal := { closed.1 with handle := CreateFileA_result }
  (monitor1, closed.2,
    if monitor1.handle = 0 ∨ monitor1.handle = INVALID_HANDLE_VALUE then -1 else 1)

/-- `remove_dirmonitor` (win32.c:62-64). -/
def remove_dirmonitor (monitor : dirmonitor_internal) (_fd : Int) :
    dirmonitor_internal × List os_call :=
  close_monitor_handle monitor

/-- `get_mode_dirmonitor` (win32.c:67). -/
def get_mode_dirmonitor : Int := 1

end win32

/-! ## The coordinator (dirmonitor.c) -/

/-- What the operating system did in one blocking read of `get_changes`. -/
structure os_read where
  /-- the bytes it stored at the start of the buffer -/
  data : Bytes
  /-- the value the call returned (`read`: a byte count or -1; `ReadDirectoryChangesW`:
  a `BOOL`) -/
  result : Int
  /-- `*lpBytesReturned` of `ReadDirectoryChangesW` -/
  bytes_transferred : Nat

/-- The buffer after the system stored `data` at its start. -/
def store (data buffer : Bytes) : Bytes :=
  data.take buffer.length ++ buffer.drop data.length

/-- The operation table `struct dirmonitor_backend` (declared in `dirmonitor/dirmonitor.h`,
initialised at inotify.c:60-69 and win32.c:69-78), with the operations the coordinator
calls after construction; `ι` is the backend's `struct dirmonitor_internal`. The last
argument of `get_changes` and of `add` is what the operating system answers. -/
structure dirmonitor_backend (ι H : Type) where
  name : String
  get_changes : ι → Bytes → os_read → Bytes × Int
  translate_changes : ι → Bytes → Int → change_callback_t (lua_State H) → lua_State H →
    Except Fault (lua_State H × Int)
  add : ι → String → Int → ι × Int
  remove : ι → Int → ι
  get_mode : Int

/-- The `dirmonitor_inotify` table (inotify.c:60-69). -/
def dirmonitor_inotify (H : Type) : dirmonitor_backend inotify.dirmonitor_internal H where
  name := "inotify"
  get_changes := fun _ buffer os =>
    (store os.data buffer, inotify.get_changes_dirmonitor os.result)
  translate_changes := fun _ buffer length change_callback data =>
    inotify.translate_changes_dirmonitor buffer length change_callback data
  add := fun monitor _ os => (monitor, inotify.add_dirmonitor os)
  remove := fun monitor fd => (inotify.remove_dirmonitor monitor fd).1
  get_mode := inotify.get_mode_dirmonitor

/-- The `dirmonitor_win32` table (win32.c:69-78), for a given system conversion
`WideCharToMultiByte`. -/
def dirmonitor_win32 (WideCharToMultiByte : List Nat → Nat → Bytes) (H : Type) :
    dirmonitor_backend win32.dirmonitor_internal H where
  name := "win32"
  get_changes := fun monitor buffer os =>
    (if monitor.handle ≠ 0 ∧ monitor.handle ≠ win32.INVALID_HANDLE_VALUE
      then store os.data buffer else buffer,
      win32.get_changes_dirmonitor monitor os.result os.bytes_transferred)
  translate_changes := fun _ buffer buffer_size change_callback data =>
    win32.translate_changes_dirmonitor WideCharToMultiByte buffer buffer_size
      change_callback data
  add := fun monitor _ os =>
    let r := win32.add_dirmonitor monitor os.toNat
    (r.1, r.2.2)
  remove := fun monitor fd => (win32.remove_dirmonitor monitor fd).1
  get_mode := win32.get_mode_dirmonitor

/-- The `struct dirmonitor` (dirmonitor.c:12-19); `thread = 0` is `NULL`. The mutex is not
modelled: each embedded operation runs as one atomic step. -/
structure dirmonitor (ι H : Type) where
  thread : Nat
  buffer : Bytes
  length : Int
  backend : dirmonitor_backend ι H
  internal : ι

/-- `find_backend` (dirmonitor.c:44-55) over the `NULL`-terminated array `backends`;
`name = none` is the `NULL` name. -/
def find_backend {ι H : Type} :
    List (dirmonitor_backend ι H) → Option String → Option (dirmonitor_backend ι H)
  | [], _ => none
  | backend :: rest, name =>
    if name = none ∨ some backend.name = name then some backend
    else find_backend rest name

/-- The constant `sizeof(monitor->buffer)` (dirmonitor.c:15). -/
def BUFFER_SIZE : Nat := 64512

/-- `f_dirmonitor_new` (dirmonitor.c:103-117): the error raised by `luaL_error`, or the
zeroed monitor bound to the backend, with `init_result` what the backend's `init` gives. -/
def f_dirmonitor_new {ι H : Type} (backends : List (dirmonitor_backend ι H))
    (name : Option String) (init_result : ι) : Except String (dirmonitor ι H) :=
  match find_backend backends name with
  | none => .error ("Unable to find dirmonitor \x27" ++ name.getD "(null)" ++ "\x27")
  | some backend =>
    .ok { thread := 0, buffer := List.replicate BUFFER_SIZE 0, length := 0,
          backend := backend, internal := init_result }

/-- `f_dirmonitor_gc` (dirmonitor.c:120-130), as far as the coordination variable goes. -/
def f_dirmonitor_gc {ι H : Type} (monitor : dirmonitor ι H) : dirmonitor ι H :=
  { monitor with length := -1 }

/-- The loop condition of `dirmonitor_check_thread` (dirmonitor.c:87). -/
def dirmonitor_check_thread_continues {ι H : Type} (monitor : dirmonitor ι H) : Bool :=
  decide (monitor.length ≥ 0)

/-- One iteration of the loop body of `dirmonitor_check_thread` (dirmonitor.c:88-97), with
no foreground step in between and `os` the system's answer to `get_changes`. -/
def dirmonitor_check_thread_iteration {ι H : Type} (monitor : dirmonitor ι H)
    (os : os_read) : dirmonitor ι H :=
  if monitor.length = 0 then
    let r := monitor.backend.get_changes monitor.internal monitor.buffer os
    let monitor1 : dirmonitor ι H := { monitor with buffer := r.1 }
    if monitor1.length = 0 then { monitor1 with length := r.2 } else monitor1
  else monitor

/-- `f_dirmonitor_watch` (dirmonitor.c:133-139): the number pushed, the monitor afterwards
and the result of `SDL_CreateThread` when it was called. `os_add` is the system's answer
inside the backend's `add`, `SDL_CreateThread` the thread pointer the call would give
(`0` when it fails). -/
def f_dirmonitor_watch {ι H : Type} (monitor : dirmonitor ι H) (path : String)
    (os_add : Int) (SDL_CreateThread : Nat) : Int × dirmonitor ι H × Option Nat :=
  let r := monitor.backend.add monitor.internal path os_add
  let monitor1 : dirmonitor ι H := { monitor with internal := r.1 }
  if monitor1.thread = 0 then
    (r.2, { monitor1 with thread := SDL_CreateThread }, some SDL_CreateThread)
  else (r.2, monitor1, none)

/-- `f_dirmonitor_unwatch` (dirmonitor.c:142-146); it pushes nothing and raises nothing. -/
def f_dirmonitor_unwatch {ι H : Type} (monitor : dirmonitor ι H) (watch_id : Int) :
    dirmonitor ι H :=
  { monitor with internal := monitor.backend.remove monitor.internal watch_id }

/-- The value `f_dirmonitor_check` pushes. -/
inductive check_return where
  | nil
  | boolean (b : Bool)
  deriving DecidableEq, Repr

/-- `f_dirmonitor_check` (dirmonitor.c:152-177): the pushed value, the monitor and the Lua
state afterwards. -/
def f_dirmonitor_check {ι H : Type} (callback : host_callback H) (monitor : dirmonitor ι H)
    (L : lua_State H) : Except Fault (check_return × dirmonitor ι H × lua_State H) :=
  if monitor.length < 0 then .ok (check_return.nil, monitor, L)
  else if monitor.length > 0 then
    -- lua_newtable(L): the table at index 4
    let L1 : lua_State H := { L with notified := [] }
    match monitor.backend.translate_changes monitor.internal monitor.buffer monitor.length
        (f_check_dir_callback callback) L1 with
    | .error e => .error e
    | .ok r =>
      .ok (check_return.boolean true,
        if r.2 = 0 then { monitor with length := 0 } else monitor, r.1)
  else .ok (check_return.boolean false, monitor, L)

/-! ## Definitions used to state the properties -/

/-- The argument `f_check_dir_callback` pushes for `(watch_id, path)` (dirmonitor.c:72-75). -/
def pushed_argument (watch_id : Int) (path : Option Bytes) : lua_Value :=
  match path with
  | some p => lua_Value.string (p.take watch_id.toNat)
  | none => lua_Value.number watch_id

/-- An `emit` that runs `change_callback` and also logs the arguments it is given. -/
def traced {σ : Type} (change_callback : change_callback_t σ) :
    change_callback_t (σ × List (Int × Option Bytes)) :=
  fun watch_id path data =>
    let r := change_callback watch_id path data.1
    ((r.1, data.2 ++ [(watch_id, path)]), r.2)

/-- An `emit` that never asks to stop (it answers 0) and logs its arguments. -/
def never_stop : change_callback_t (List (Int × Option Bytes)) :=
  fun watch_id path log => (log ++ [(watch_id, path)], 0)

/-- An `emit` that always asks to stop (it answers 1) and logs its arguments. -/
def always_stop : change_callback_t (List (Int × Option Bytes)) :=
  fun watch_id path log => (log ++ [(watch_id, path)], 1)

/-- The list without the elements whose key occurred earlier in it: of the elements with
one key, the first is kept. -/
def remove_later_duplicates_by {α κ : Type} [DecidableEq κ] (key : α → κ) : List α → List α
  | [] => []
  | x :: xs => x :: (remove_later_duplicates_by key xs).filter (fun y => decide (key y ≠ key x))

/-- The four bytes of a 32-bit little-endian value. -/
def le32 (v : Nat) : Bytes :=
  [v % 256, v / 256 % 256, v / 65536 % 256, v / 16777216 % 256]

/-- The four bytes of a C `int` (two's complement, little-endian). -/
def le32_int (i : Int) : Bytes := le32 (i % 4294967296).toNat

/-- The two bytes of a 16-bit little-endian unit. -/
def le16 (v : Nat) : Bytes := [v % 256, v / 256 % 256]

namespace inotify

/-- A native inotify record: the header fields and the `len` bytes of name. -/
structure event where
  wd : Int
  mask : Nat
  cookie : Nat
  name : Bytes
  deriving DecidableEq, Repr

/-- The bytes of one record: the 16-byte header, then the name. -/
def encode_event (e : event) : Bytes :=
  le32_int e.wd ++ le32 e.mask ++ le32 e.cookie ++ le32 e.name.length ++ e.name

/-- A batch: the records one after the other. -/
def encode : List event → Bytes
  | [] => []
  | e :: es => encode_event e ++ encode es

/-- The handles the `for` loop passes to `change_callback`, in order (the loop of
`translate_loop` without the callback). -/
def handles_loop (buffer : Bytes) (length : Int) : Nat → Nat → Except Fault (List Int)
  | 0, info => if (info : Int) < length then .error .out_of_fuel else .ok []
  | fuel + 1, info =>
    if (info : Int) < length then
      match read_i32 buffer info with
      | .error e => .error e
      | .ok wd =>
        match handles_loop buffer length fuel (info + sizeof_inotify_event) with
        | .error e => .error e
        | .ok wds => .ok (wd :: wds)
    else .ok []

end inotify

namespace win32

/-- A native `FILE_NOTIFY_INFORMATION` record: the action and the name in UTF-16 units. -/
structure notify_information where
  Action : Nat
  FileName : List Nat
  deriving DecidableEq, Repr

/-- The bytes of a name: its 16-bit units, little-endian. -/
def encode_units : List Nat → Bytes
  | [] => []
  | u :: us => le16 u ++ encode_units us

/-- The padding that brings a record to a `DWORD` boundary. -/
def padding (r : notify_information) : Nat :=
  if r.FileName.length % 2 = 1 then 2 else 0

/-- The size of a record in the buffer: the 12-byte header, the name, the padding. -/
def record_size (r : notify_information) : Nat :=
  12 + 2 * r.FileName.length + padding r

/-- The bytes of one record whose `NextEntryOffset` field is `next`. -/
def encode_record (next : Nat) (r : notify_information) : Bytes :=
  le32 next ++ (le32 r.Action ++ (le32 (2 * r.FileName.length) ++
    (encode_units r.FileName ++ List.replicate (padding r) 0)))

/-- A batch: each record points to the next one, the last has `NextEntryOffset = 0`. -/
def encode : List notify_information → Bytes
  | [] => []
  | [r] => encode_record 0 r
  | r :: r2 :: rs => encode_record (record_size r) r ++ encode (r2 :: rs)

/-- A record that fits its fields: 16-bit units, 32-bit action and size. -/
def well_formed (r : notify_information) : Prop :=
  r.Action < 4294967296 ∧ record_size r < 4294967296 ∧ ∀ u ∈ r.FileName, u < 65536

/-- The converted names the `for` loop passes to `change_callback`, in order (the loop of
`translate_loop` without the callback). -/
def names_loop (WideCharToMultiByte : List Nat → Nat → Bytes) (buffer : Bytes)
    (buffer_size : Int) : Nat → Nat → Except Fault (List Bytes)
  | 0, info => if (info : Int) < buffer_size then .error .out_of_fuel else .ok []
  | fuel + 1, info =>
    if (info : Int) < buffer_size then
      match read_u32 buffer (info + 8) with
      | .error e => .error e
      | .ok FileNameLength =>
        match read_wchars buffer (info + 12) (FileNameLength / 2) with
        | .error e => .error e
        | .ok FileName =>
          match read_u32 buffer info with
          | .error e => .error e
          | .ok NextEntryOffset =>
            if NextEntryOffset = 0 then
              .ok [WideCharToMultiByte FileName (MAX_PATH * 4 - 1)]
            else
              match names_loop WideCharToMultiByte buffer buffer_size fuel
                  (info + NextEntryOffset) with
              | .error e => .error e
              | .ok names => .ok (WideCharToMultiByte FileName (MAX_PATH * 4 - 1) :: names)
    else .ok []

/-- The UTF-8 bytes of a code point. -/
def utf8_of_code_point (c : Nat) : Bytes :=
  if c < 128 then [c]
  else if c < 2048 then [192 + c / 64, 128 + c % 64]
  else if c < 65536 then [224 + c / 4096, 128 + c / 64 % 64, 128 + c % 64]
  else [240 + c / 262144, 128 + c / 4096 % 64, 128 + c / 64 % 64, 128 + c % 64]

/-- The UTF-8 bytes of UTF-16 units; the first argument is a high surrogate waiting for
its low half, and a surrogate without partner becomes U+FFFD. -/
def utf8_of_utf16 : Option Nat → List Nat → Bytes
  | none, [] => []
  | some _, [] => utf8_of_code_point 65533
  | none, u :: us =>
    if 55296 ≤ u ∧ u < 56320 then utf8_of_utf16 (some u) us
    else if 56320 ≤ u ∧ u < 57344 then utf8_of_code_point 65533 ++ utf8_of_utf16 none us
    else utf8_of_code_point u ++ utf8_of_utf16 none us
  | some hi, u :: us =>
    if 56320 ≤ u ∧ u < 57344 then
      utf8_of_code_point (65536 + (hi - 55296) * 1024 + (u - 56320)) ++ utf8_of_utf16 none us
    else if 55296 ≤ u ∧ u < 56320 then utf8_of_code_point 65533 ++ utf8_of_utf16 (some u) us
    else utf8_of_code_point 65533 ++ (utf8_of_code_point u ++ utf8_of_utf16 none us)

/-- The system conversion `WideCharToMultiByte(CP_UTF8, 0, units, n, out, cb, NULL, NULL)`
as documented, used for the concrete batches: the UTF-8 bytes written, none when the call
fails (no input units, or more than `cb` bytes of output). -/
def WideCharToMultiByte_utf8 (units : List Nat) (cbMultiByte : Nat) : Bytes :=
  match units with
  | [] => []
  | _ :: _ =>
    if (utf8_of_utf16 none units).length ≤ cbMultiByte then utf8_of_utf16 none units else []

end win32

/-- The thread pointers a `watch` call obtained from a successful `SDL_CreateThread`. -/
def threads_created (spawned : Option Nat) : List Nat :=
  match spawned with
  | some t => if t = 0 then [] else [t]
  | none => []

/-- A sequence of `watch` calls, each with its path, the system's answer inside `add` and
the pointer `SDL_CreateThread` would give: the monitor afterwards and the threads created,
in order. -/
def watch_sequence {ι H : Type} (monitor : dirmonitor ι H) :
    List (String × Int × Nat) → dirmonitor ι H × List Nat
  | [] => (monitor, [])
  | (path, os_add, thread) :: rest =>
    let r := f_dirmonitor_watch monitor path os_add thread
    let rr := watch_sequence r.2.1 rest
    (rr.1, threads_created r.2.2 ++ rr.2)

/-! ## Memory lemmas -/

theorem read_u8_append (pre rest : Bytes) (k v : Nat) (h : read_u8 rest k = .ok v) :
    read_u8 (pre ++ rest) (pre.length + k) = .ok v := by
  unfold read_u8 at h ⊢
  rw [List.getElem?_append_right (Nat.le_add_right _ _), Nat.add_sub_cancel_left]
  cases hr : rest[k]? with
  | none => simp [hr] at h
  | some b => simpa [hr] using h

theorem read_u8_ok (buffer : Bytes) (k : Nat) (h : k < buffer.length) :
    ∃ v, read_u8 buffer k = .ok v := by
  unfold read_u8
  rw [List.getElem?_eq_getElem h]
  exact ⟨_, rfl⟩

theorem read_u32_ok (buffer : Bytes) (k : Nat) (h : k + 4 ≤ buffer.length) :
    ∃ v, read_u32 buffer k = .ok v := by
  obtain ⟨b0, h0⟩ := read_u8_ok buffer k (by omega)
  obtain ⟨b1, h1⟩ := read_u8_ok buffer (k + 1) (by omega)
  obtain ⟨b2, h2⟩ := read_u8_ok buffer (k + 2) (by omega)
  obtain ⟨b3, h3⟩ := read_u8_ok buffer (k + 3) (by omega)
  exact ⟨b0 + 256 * b1 + 65536 * b2 + 16777216 * b3,
    by simp only [read_u32, h0, h1, h2, h3, bind, Except.bind, pure, Except.pure]⟩

theorem read_i32_ok (buffer : Bytes) (k : Nat) (h : k + 4 ≤ buffer.length) :
    ∃ v, read_i32 buffer k = .ok v := by
  obtain ⟨u, hu⟩ := read_u32_ok buffer k h
  exact ⟨if u < 2147483648 then (u : Int) else (u : Int) - 4294967296,
    by simp only [read_i32, hu, bind, Except.bind, pure, Except.pure]⟩

theorem read_u32_append (pre rest : Bytes) (k v : Nat) (h : read_u32 rest k = .ok v) :
    read_u32 (pre ++ rest) (pre.length + k) = .ok v := by
  unfold read_u32 at h ⊢
  cases h0 : read_u8 rest k with
  | error e => simp [h0, bind, Except.bind] at h
  | ok b0 =>
    cases h1 : read_u8 rest (k + 1) with
    | error e => simp [h0, h1, bind, Except.bind] at h
    | ok b1 =>
      cases h2 : read_u8 rest (k + 2) with
      | error e => simp [h0, h1, h2, bind, Except.bind] at h
      | ok b2 =>
        cases h3 : read_u8 rest (k + 3) with
        | error e => simp [h0, h1, h2, h3, bind, Except.bind] at h
        | ok b3 =>
          rw [h0, h1, h2, h3] at h
          rw [read_u8_append pre rest k b0 h0, Nat.add_assoc,
            read_u8_append pre rest (k + 1) b1 h1, Nat.add_assoc,
            read_u8_append pre rest (k + 2) b2 h2, Nat.add_assoc,
            read_u8_append pre rest (k + 3) b3 h3]
          exact h

theorem read_i32_append (pre rest : Bytes) (k : Nat) (v : Int)
    (h : read_i32 rest k = .ok v) : read_i32 (pre ++ rest) (pre.length + k) = .ok v := by
  unfold read_i32 at h ⊢
  cases hu : read_u32 rest k with
  | error e => simp [hu, bind, Except.bind] at h
  | ok u =>
    rw [hu] at h
    rw [read_u32_append pre rest k u hu]
    exact h

theorem read_u8_error (buffer : Bytes) (k : Nat) (e : Fault)
    (h : read_u8 buffer k = .error e) : e = .out_of_bounds k ∧ buffer.length ≤ k := by
  unfold read_u8 at h
  cases hr : buffer[k]? with
  | none =>
    rw [hr] at h
    injection h with h
    exact ⟨h.symm, List.getElem?_eq_none_iff.mp hr⟩
  | some b => simp [hr] at h

theorem read_u32_error (buffer : Bytes) (k : Nat) (e : Fault)
    (h : read_u32 buffer k = .error e) :
    ∃ o, e = .out_of_bounds o ∧ buffer.length ≤ o ∧ o < k + 4 := by
  unfold read_u32 at h
  cases h0 : read_u8 buffer k with
  | error e0 =>
    simp only [h0, bind, Except.bind] at h
    injection h with h
    subst h
    exact ⟨k, (read_u8_error _ _ _ h0).1, (read_u8_error _ _ _ h0).2, by omega⟩
  | ok b0 =>
    cases h1 : read_u8 buffer (k + 1) with
    | error e1 =>
      simp only [h0, h1, bind, Except.bind] at h
      injection h with h
      subst h
      exact ⟨k + 1, (read_u8_error _ _ _ h1).1, (read_u8_error _ _ _ h1).2, by omega⟩
    | ok b1 =>
      cases h2 : read_u8 buffer (k + 2) with
      | error e2 =>
        simp only [h0, h1, h2, bind, Except.bind] at h
        injection h with h
        subst h
        exact ⟨k + 2, (read_u8_error _ _ _ h2).1, (read_u8_error _ _ _ h2).2, by omega⟩
      | ok b2 =>
        cases h3 : read_u8 buffer (k + 3) with
        | error e3 =>
          simp only [h0, h1, h2, h3, bind, Except.bind] at h
          injection h with h
          subst h
          exact ⟨k + 3, (read_u8_error _ _ _ h3).1, (read_u8_error _ _ _ h3).2, by omega⟩
        | ok b3 => simp [h0, h1, h2, h3, bind, Except.bind, pure, Except.pure] at h

theorem read_i32_error (buffer : Bytes) (k : Nat) (e : Fault)
    (h : read_i32 buffer k = .error e) :
    ∃ o, e = .out_of_bounds o ∧ buffer.length ≤ o ∧ o < k + 4 := by
  unfold read_i32 at h
  cases hu : read_u32 buffer k with
  | error e0 =>
    simp only [hu, bind, Except.bind] at h
    injection h with h
    subst h
    exact read_u32_error _ _ _ hu
  | ok u => simp [hu, bind, Except.bind, pure, Except.pure] at h

theorem read_u32_le32 (v : Nat) (hv : v < 4294967296) (rest : Bytes) :
    read_u32 (le32 v ++ rest) 0 = .ok v := by
  simp only [read_u32, read_u8, le32, bind, Except.bind, pure, Except.pure]
  simp
  omega

theorem read_i32_le32_int (i : Int) (h1 : -2147483648 ≤ i) (h2 : i < 2147483648)
    (rest : Bytes) : read_i32 (le32_int i ++ rest) 0 = .ok i := by
  have hv : (i % 4294967296).toNat < 4294967296 := by omega
  simp only [read_i32, le32_int, read_u32_le32 _ hv, bind, Except.bind, pure, Except.pure]
  congr 1
  split <;> omega

/-! ## The inotify loop -/

namespace inotify

theorem translate_loop_eq_handles_fold {σ : Type} (buffer : Bytes) (length : Int)
    (cb : change_callback_t σ) :
    ∀ (fuel info : Nat) (data : σ),
      translate_loop buffer length cb fuel info data =
        match handles_loop buffer length fuel info with
        | .error e => .error e
        | .ok wds => .ok (wds.foldl (fun d wd => (cb wd none d).1) data) := by
  intro fuel
  induction fuel with
  | zero =>
    intro info data
    by_cases h : (info : Int) < length <;> simp [translate_loop, handles_loop, h]
  | succ n ih =>
    intro info data
    by_cases h : (info : Int) < length
    · cases hr : read_i32 buffer info with
      | error e => simp [translate_loop, handles_loop, h, hr]
      | ok wd =>
        simp only [translate_loop, handles_loop, h, hr, if_true, ih]
        cases handles_loop buffer length n (info + sizeof_inotify_event) <;> simp
    · simp [translate_loop, handles_loop, h]

theorem handles_loop_fuel (buffer : Bytes) (length : Int) :
    ∀ (fuel info : Nat), length ≤ (fuel : Int) + info →
      handles_loop buffer length fuel info ≠ .error .out_of_fuel := by
  intro fuel
  induction fuel with
  | zero =>
    intro info hf
    have h : ¬ (info : Int) < length := by omega
    simp [handles_loop, h]
  | succ n ih =>
    intro info hf
    by_cases h : (info : Int) < length
    · cases hr : read_i32 buffer info with
      | error e =>
        simp only [handles_loop, h, hr, if_true]
        intro hc
        injection hc with hc
        subst hc
        obtain ⟨o, ho, _⟩ := read_i32_error _ _ _ hr
        cases ho
      | ok wd =>
        have hn := ih (info + sizeof_inotify_event)
          (by simp only [sizeof_inotify_event]; push_cast; omega)
        simp only [handles_loop, h, hr, if_true]
        cases hl : handles_loop buffer length n (info + sizeof_inotify_event) with
        | error e =>
          intro hc
          injection hc with hc
          exact hn (by rw [hl, hc])
        | ok wds => simp
    · simp [handles_loop, h]

theorem encode_event_length (e : event) : (encode_event e).length = 16 + e.name.length := by
  simp only [encode_event, le32_int, le32, List.length_append, List.length_cons,
    List.length_nil]

theorem read_i32_encode_event (e : event) (h1 : -2147483648 ≤ e.wd) (h2 : e.wd < 2147483648)
    (pre rest : Bytes) : read_i32 (pre ++ (encode_event e ++ rest)) pre.length = .ok e.wd := by
  have h := read_i32_append pre (encode_event e ++ rest) 0 e.wd
    (by
      simp only [encode_event, List.append_assoc]
      exact read_i32_le32_int e.wd h1 h2 _)
  simpa using h

theorem handles_loop_encode (junk : Bytes) :
    ∀ (es : List event),
      (∀ e ∈ es, e.name = [] ∧ -2147483648 ≤ e.wd ∧ e.wd < 2147483648) →
      ∀ (pre : Bytes) (fuel : Nat), es.length ≤ fuel →
        handles_loop (pre ++ (encode es ++ junk)) ((pre.length : Int) + 16 * es.length) fuel
          pre.length = .ok (es.map (fun e => e.wd)) := by
  intro es
  induction es with
  | nil =>
    intro _ pre fuel _
    cases fuel <;> simp [handles_loop]
  | cons e es ih =>
    intro hes pre fuel hf
    obtain ⟨hname, h1, h2⟩ := hes e (List.mem_cons_self _ _)
    cases fuel with
    | zero => simp at hf
    | succ f =>
      have hcond : (pre.length : Int) < (pre.length : Int) + 16 * ((e :: es).length : Nat) := by
        simp only [List.length_cons]; push_cast; omega
      have hread : read_i32 (pre ++ (encode (e :: es) ++ junk)) pre.length = .ok e.wd := by
        simp only [encode, List.append_assoc]
        exact read_i32_encode_event e h1 h2 pre _
      have hlen : (pre ++ encode_event e).length = pre.length + sizeof_inotify_event := by
        simp [encode_event_length, hname, sizeof_inotify_event]
      have hbuf : pre ++ (encode (e :: es) ++ junk) =
          (pre ++ encode_event e) ++ (encode es ++ junk) := by
        simp [encode, List.append_assoc]
      have hL : (pre.length : Int) + 16 * ((e :: es).length : Nat) =
          ((pre ++ encode_event e).length : Int) + 16 * (es.length : Nat) := by
        rw [hlen]; simp only [List.length_cons, sizeof_inotify_event]; push_cast; omega
      have hrec := ih (fun x hx => hes x (List.mem_cons_of_mem _ hx)) (pre ++ encode_event e) f
        (by simpa using hf)
      simp only [handles_loop, hcond, hread, if_true]
      rw [hbuf, hL, ← hlen, hrec]
      simp

theorem handles_loop_in_bounds (buffer : Bytes) (length : Int)
    (hlen : length ≤ buffer.length) (hcap : 16 ∣ buffer.length) :
    ∀ (fuel info : Nat), 16 ∣ info → length ≤ (fuel : Int) + info →
      ∃ wds, handles_loop buffer length fuel info = .ok wds := by
  intro fuel
  induction fuel with
  | zero =>
    intro info _ hf
    have h : ¬ (info : Int) < length := by omega
    exact ⟨[], by simp [handles_loop, h]⟩
  | succ n ih =>
    intro info hinfo hf
    by_cases h : (info : Int) < length
    · obtain ⟨wd, hwd⟩ := read_i32_ok buffer info (by omega)
      obtain ⟨wds, hwds⟩ := ih (info + sizeof_inotify_event)
        (by simp only [sizeof_inotify_event]; omega)
        (by simp only [sizeof_inotify_event]; push_cast; omega)
      exact ⟨wd :: wds, by simp [handles_loop, h, hwd, hwds]⟩
    · exact ⟨[], by simp [handles_loop, h]⟩

end inotify

/-! ## The win32 loop -/

theorem read_wchars_error (buffer : Bytes) :
    ∀ (n k : Nat) (e : Fault), read_wchars buffer k n = .error e →
      ∃ o, e = .out_of_bounds o ∧ buffer.length ≤ o := by
  intro n
  induction n with
  | zero => intro k e h; simp [read_wchars, pure, Except.pure] at h
  | succ n ih =>
    intro k e h
    unfold read_wchars at h
    cases h0 : read_u8 buffer k with
    | error e0 =>
      simp only [h0, bind, Except.bind] at h
      injection h with h
      subst h
      exact ⟨k, read_u8_error _ _ _ h0⟩
    | ok lo =>
      cases h1 : read_u8 buffer (k + 1) with
      | error e1 =>
        simp only [h0, h1, bind, Except.bind] at h
        injection h with h
        subst h
        exact ⟨k + 1, read_u8_error _ _ _ h1⟩
      | ok hi =>
        cases h2 : read_wchars buffer (k + 2) n with
        | error e2 =>
          simp only [h0, h1, h2, bind, Except.bind] at h
          injection h with h
          subst h
          exact ih _ _ h2
        | ok us => simp [h0, h1, h2, bind, Except.bind, pure, Except.pure] at h

theorem read_wchars_append (pre rest : Bytes) :
    ∀ (n k : Nat) (us : List Nat), read_wchars rest k n = .ok us →
      read_wchars (pre ++ rest) (pre.length + k) n = .ok us := by
  intro n
  induction n with
  | zero => intro k us h; simpa [read_wchars] using h
  | succ n ih =>
    intro k us h
    unfold read_wchars at h ⊢
    cases h0 : read_u8 rest k with
    | error e0 => simp [h0, bind, Except.bind] at h
    | ok lo =>
      cases h1 : read_u8 rest (k + 1) with
      | error e1 => simp [h0, h1, bind, Except.bind] at h
      | ok hi =>
        cases h2 : read_wchars rest (k + 2) n with
        | error e2 => simp [h0, h1, h2, bind, Except.bind] at h
        | ok us2 =>
          rw [h0, h1, h2] at h
          rw [read_u8_append pre rest k lo h0, Nat.add_assoc,
            read_u8_append pre rest (k + 1) hi h1, Nat.add_assoc, ih (k + 2) us2 h2]
          exact h

namespace win32

theorem read_wchars_encode_units (tail : Bytes) :
    ∀ (us : List Nat), (∀ u ∈ us, u < 65536) →
      read_wchars (encode_units us ++ tail) 0 us.length = .ok us := by
  intro us
  induction us with
  | nil => intro _; rfl
  | cons u us ih =>
    intro hus
    have hu : u < 65536 := hus u (List.mem_cons_self _ _)
    have hrest : read_wchars (u % 256 :: u / 256 % 256 :: (encode_units us ++ tail)) 2
        us.length = .ok us := by
      have h := read_wchars_append (le16 u) (encode_units us ++ tail) us.length 0 us
        (ih (fun x hx => hus x (List.mem_cons_of_mem _ hx)))
      simpa [le16] using h
    have hval : u % 256 + 256 * (u / 256 % 256) = u := by omega
    have hbuf : encode_units (u :: us) ++ tail =
        u % 256 :: u / 256 % 256 :: (encode_units us ++ tail) := by
      simp [encode_units, le16]
    rw [hbuf]
    simp only [read_wchars, List.length_cons, read_u8, bind, Except.bind, pure, Except.pure]
    simp [hrest, hval]

theorem translate_loop_eq_names_fold {σ : Type} (W : List Nat → Nat → Bytes) (buffer : Bytes)
    (buffer_size : Int) (cb : change_callback_t σ) :
    ∀ (fuel info : Nat) (data : σ),
      translate_loop W buffer buffer_size cb fuel info data =
        match names_loop W buffer buffer_size fuel info with
        | .error e => .error e
        | .ok names =>
          .ok (names.foldl (fun d tb => (cb (tb.length : Int) (some tb) d).1) data) := by
  intro fuel
  induction fuel with
  | zero =>
    intro info data
    by_cases h : (info : Int) < buffer_size <;> simp [translate_loop, names_loop, h]
  | succ n ih =>
    intro info data
    by_cases h : (info : Int) < buffer_size
    · cases h8 : read_u32 buffer (info + 8) with
      | error e => simp [translate_loop, names_loop, h, h8]
      | ok fnl =>
        cases hw : read_wchars buffer (info + 12) (fnl / 2) with
        | error e => simp [translate_loop, names_loop, h, h8, hw]
        | ok name =>
          cases h0 : read_u32 buffer info with
          | error e => simp [translate_loop, names_loop, h, h8, hw, h0]
          | ok next =>
            by_cases hz : next = 0
            · simp [translate_loop, names_loop, h, h8, hw, h0, hz]
            · simp only [translate_loop, names_loop, h, h8, hw, h0, hz, if_true, if_false, ih]
              cases names_loop W buffer buffer_size n (info + next) <;> simp
    · simp [translate_loop, names_loop, h]

theorem names_loop_fuel (W : List Nat → Nat → Bytes) (buffer : Bytes) (buffer_size : Int) :
    ∀ (fuel info : Nat), buffer_size ≤ (fuel : Int) + info →
      names_loop W buffer buffer_size fuel info ≠ .error .out_of_fuel := by
  intro fuel
  induction fuel with
  | zero =>
    intro info hf
    have h : ¬ (info : Int) < buffer_size := by omega
    simp [names_loop, h]
  | succ n ih =>
    intro info hf
    by_cases h : (info : Int) < buffer_size
    · cases h8 : read_u32 buffer (info + 8) with
      | error e =>
        obtain ⟨o, ho, _⟩ := read_u32_error _ _ _ h8
        subst ho
        simp [names_loop, h, h8]
      | ok fnl =>
        cases hw : read_wchars buffer (info + 12) (fnl / 2) with
        | error e =>
          obtain ⟨o, ho, _⟩ := read_wchars_error _ _ _ _ hw
          subst ho
          simp [names_loop, h, h8, hw]
        | ok name =>
          cases h0 : read_u32 buffer info with
          | error e =>
            obtain ⟨o, ho, _⟩ := read_u32_error _ _ _ h0
            subst ho
            simp [names_loop, h, h8, hw, h0]
          | ok next =>
            by_cases hz : next = 0
            · simp [names_loop, h, h8, hw, h0, hz]
            · have hn := ih (info + next) (by push_cast; omega)
              simp only [names_loop, h, h8, hw, h0, hz, if_true, if_false]
              cases hl : names_loop W buffer buffer_size n (info + next) with
              | error e =>
                intro hc
                injection hc with hc
                exact hn (by rw [hl, hc])
              | ok names => simp
    · simp [names_loop, h]

theorem encode_units_length : ∀ us : List Nat, (encode_units us).length = 2 * us.length := by
  intro us
  induction us with
  | nil => rfl
  | cons u us ih => simp only [encode_units, le16, List.length_append, List.length_cons,
      List.length_nil, ih]; omega

theorem encode_record_length (next : Nat) (r : notify_information) :
    (encode_record next r).length = record_size r := by
  simp only [encode_record, le32, record_size, List.length_append, List.length_cons,
    List.length_nil, encode_units_length, List.length_replicate]
  omega

theorem read_next_entry_offset (next : Nat) (hn : next < 4294967296) (r : notify_information)
    (pre tail : Bytes) :
    read_u32 (pre ++ (encode_record next r ++ tail)) pre.length = .ok next := by
  have h := read_u32_append pre (encode_record next r ++ tail) 0 next
    (by
      simp only [encode_record, List.append_assoc]
      exact read_u32_le32 next hn _)
  simpa using h

theorem read_file_name_length (next : Nat) (r : notify_information)
    (hr : well_formed r) (pre tail : Bytes) :
    read_u32 (pre ++ (encode_record next r ++ tail)) (pre.length + 8) =
      .ok (2 * r.FileName.length) := by
  have hv : 2 * r.FileName.length < 4294967296 := by
    have := hr.2.1
    simp only [record_size] at this
    omega
  have h := read_u32_append (pre ++ (le32 next ++ le32 r.Action))
    (le32 (2 * r.FileName.length) ++
      (encode_units r.FileName ++ List.replicate (padding r) 0 ++ tail)) 0
    (2 * r.FileName.length) (read_u32_le32 _ hv _)
  have hl : (pre ++ (le32 next ++ le32 r.Action)).length + 0 = pre.length + 8 := by
    simp [le32]
  rw [hl] at h
  simpa [encode_record, List.append_assoc] using h

theorem read_file_name (next : Nat) (r : notify_information)
    (hr : well_formed r) (pre tail : Bytes) :
    read_wchars (pre ++ (encode_record next r ++ tail)) (pre.length + 12)
      (2 * r.FileName.length / 2) = .ok r.FileName := by
  have h := read_wchars_append
    (pre ++ (le32 next ++ (le32 r.Action ++ le32 (2 * r.FileName.length))))
    (encode_units r.FileName ++ (List.replicate (padding r) 0 ++ tail)) r.FileName.length 0
    r.FileName (read_wchars_encode_units _ r.FileName hr.2.2)
  have hl : (pre ++ (le32 next ++ (le32 r.Action ++ le32 (2 * r.FileName.length)))).length + 0
      = pre.length + 12 := by
    simp [le32]
  rw [hl] at h
  have hd : 2 * r.FileName.length / 2 = r.FileName.length := by omega
  rw [hd]
  simpa [encode_record, List.append_assoc] using h

theorem names_loop_encode (W : List Nat → Nat → Bytes) (junk : Bytes) :
    ∀ (rs : List notify_information), rs ≠ [] → (∀ r ∈ rs, well_formed r) →
      ∀ (pre : Bytes) (fuel : Nat), rs.length ≤ fuel →
        names_loop W (pre ++ (encode rs ++ junk))
          ((pre.length : Int) + ((encode rs).length : Nat)) fuel pre.length =
          .ok (rs.map (fun r => W r.FileName (MAX_PATH * 4 - 1))) := by
  intro rs
  induction rs with
  | nil => intro h; exact absurd rfl h
  | cons r rs ih =>
    intro _ hwf pre fuel hf
    have hr : well_formed r := hwf r (List.mem_cons_self _ _)
    cases fuel with
    | zero => simp at hf
    | succ f =>
      cases rs with
      | nil =>
        have hcond : (pre.length : Int) <
            (pre.length : Int) + ((encode [r]).length : Nat) := by
          simp only [encode, encode_record_length, record_size]; push_cast; omega
        have h8 := read_file_name_length 0 r hr pre junk
        have hw := read_file_name 0 r hr pre junk
        rw [show 2 * r.FileName.length / 2 = r.FileName.length by omega] at hw
        have h0 := read_next_entry_offset 0 (by omega) r pre junk
        simp only [encode] at hcond ⊢
        simp [names_loop, hcond, h8, hw, h0]
      | cons r2 rs2 =>
        have hsz : record_size r < 4294967296 := hr.2.1
        have hnz : record_size r ≠ 0 := by simp only [record_size]; omega
        have hcond : (pre.length : Int) <
            (pre.length : Int) + ((encode (r :: r2 :: rs2)).length : Nat) := by
          simp only [encode, List.length_append, encode_record_length, record_size]
          push_cast; omega
        have hbuf : pre ++ (encode (r :: r2 :: rs2) ++ junk) =
            pre ++ (encode_record (record_size r) r ++ (encode (r2 :: rs2) ++ junk)) := by
          simp [encode, List.append_assoc]
        have h8 := read_file_name_length (record_size r) r hr pre (encode (r2 :: rs2) ++ junk)
        have hw := read_file_name (record_size r) r hr pre (encode (r2 :: rs2) ++ junk)
        have h0 := read_next_entry_offset (record_size r) hsz r pre
          (encode (r2 :: rs2) ++ junk)
        have hrec := ih (List.cons_ne_nil _ _) (fun x hx => hwf x (List.mem_cons_of_mem _ hx))
          (pre ++ encode_record (record_size r) r) f (by simpa using hf)
        have hlen : (pre ++ encode_record (record_size r) r).length =
            pre.length + record_size r := by
          simp [encode_record_length]
        have hL : (pre.length : Int) + ((encode (r :: r2 :: rs2)).length : Nat) =
            ((pre ++ encode_record (record_size r) r).length : Int) +
              ((encode (r2 :: rs2)).length : Nat) := by
          rw [hlen]
          simp only [encode, List.length_append, encode_record_length]
          push_cast; omega
        have hbuf2 : pre ++ (encode_record (record_size r) r ++ (encode (r2 :: rs2) ++ junk)) =
            (pre ++ encode_record (record_size r) r) ++ (encode (r2 :: rs2) ++ junk) := by
          simp [List.append_assoc]
        rw [hbuf]
        simp only [names_loop, hcond, h8, hw, h0, hnz, if_true, if_false]
        rw [hbuf2, hL, ← hlen, hrec]
        simp

theorem length_le_encode_length : ∀ rs : List notify_information,
    rs.length ≤ (encode rs).length := by
  intro rs
  induction rs with
  | nil => simp [encode]
  | cons r rs ih =>
    cases rs with
    | nil => simp only [encode, encode_record_length, record_size, List.length_singleton]; omega
    | cons r2 rs2 =>
      simp only [encode, List.length_append, encode_record_length, record_size,
        List.length_cons] at ih ⊢
      omega

end win32

/-! ## Duplicate suppression of the callback -/

theorem fold_check_calls {H α : Type} (cb : host_callback H) (id_of : α → Int)
    (path_of : α → Option Bytes) :
    ∀ (xs : List α) (L : lua_State H),
      (xs.foldl (fun d x => (f_check_dir_callback cb (id_of x) (path_of x) d).1) L).calls =
        L.calls ++
          ((remove_later_duplicates_by id_of xs).filter
            (fun x => decide (id_of x ∉ L.notified))).map
            (fun x => pushed_argument (id_of x) (path_of x)) := by
  intro xs
  induction xs with
  | nil => intro L; simp [remove_later_duplicates_by]
  | cons x xs ih =>
    intro L
    rw [List.foldl_cons, ih]
    by_cases hx : id_of x ∈ L.notified
    · have hstep : (f_check_dir_callback cb (id_of x) (path_of x) L).1 = L := by
        simp [f_check_dir_callback, hx]
      rw [hstep]
      congr 2
      simp only [remove_later_duplicates_by, List.filter_cons, hx, not_true_eq_false,
        decide_False, Bool.false_eq_true, if_false, List.filter_filter]
      apply List.filter_congr
      intro y _
      by_cases hy : id_of y ∈ L.notified
      · simp [hy]
      · have : id_of y ≠ id_of x := fun h => hy (h ▸ hx)
        simp [hy, this]
    · have hn : (f_check_dir_callback cb (id_of x) (path_of x) L).1.notified =
          id_of x :: L.notified := by
        simp [f_check_dir_callback, hx]
      have hc : (f_check_dir_callback cb (id_of x) (path_of x) L).1.calls =
          L.calls ++ [pushed_argument (id_of x) (path_of x)] := by
        simp only [f_check_dir_callback, hx, decide_False, Bool.false_eq_true, if_false,
          pushed_argument]
      rw [hn, hc, List.append_assoc]
      congr 1
      simp only [remove_later_duplicates_by, List.filter_cons, hx, not_false_eq_true,
        decide_True, if_true, List.filter_filter, List.map_cons, List.singleton_append]
      congr 2
      apply List.filter_congr
      intro y _
      by_cases hy : id_of y ∈ L.notified
      · simp [hy]
      · by_cases hxy : id_of y = id_of x
        · simp [hxy]
        · simp [hy, hxy]

theorem fold_check_host {H α : Type} (cb : host_callback H) (id_of : α → Int)
    (path_of : α → Option Bytes) :
    ∀ (xs : List α) (L : lua_State H),
      (xs.foldl (fun d x => (f_check_dir_callback cb (id_of x) (path_of x) d).1) L).host =
        ((remove_later_duplicates_by id_of xs).filter
          (fun x => decide (id_of x ∉ L.notified))).foldl
          (fun h x => (cb h (pushed_argument (id_of x) (path_of x))).1) L.host := by
  intro xs
  induction xs with
  | nil => intro L; simp [remove_later_duplicates_by]
  | cons x xs ih =>
    intro L
    rw [List.foldl_cons, ih]
    by_cases hx : id_of x ∈ L.notified
    · have hstep : (f_check_dir_callback cb (id_of x) (path_of x) L).1 = L := by
        simp [f_check_dir_callback, hx]
      rw [hstep]
      congr 1
      simp only [remove_later_duplicates_by, List.filter_cons, hx, not_true_eq_false,
        decide_False, Bool.false_eq_true, if_false, List.filter_filter]
      apply List.filter_congr
      intro y _
      by_cases hy : id_of y ∈ L.notified
      · simp [hy]
      · have : id_of y ≠ id_of x := fun h => hy (h ▸ hx)
        simp [hy, this]
    · have hn : (f_check_dir_callback cb (id_of x) (path_of x) L).1.notified =
          id_of x :: L.notified := by
        simp [f_check_dir_callback, hx]
      have hh : (f_check_dir_callback cb (id_of x) (path_of x) L).1.host =
          (cb L.host (pushed_argument (id_of x) (path_of x))).1 := by
        simp only [f_check_dir_callback, hx, decide_False, Bool.false_eq_true, if_false,
          pushed_argument]
      rw [hn, hh]
      simp only [remove_later_duplicates_by, List.filter_cons, hx, not_false_eq_true,
        decide_True, if_true, List.filter_filter, List.foldl_cons]
      congr 1
      apply List.filter_congr
      intro y _
      by_cases hy : id_of y ∈ L.notified
      · simp [hy]
      · by_cases hxy : id_of y = id_of x
        · simp [hxy]
        · simp [hy, hxy]

theorem mem_of_mem_remove_later_duplicates_by {α κ : Type} [DecidableEq κ] (key : α → κ) :
    ∀ (l : List α) (y : α), y ∈ remove_later_duplicates_by key l → y ∈ l := by
  intro l
  induction l with
  | nil => intro y hy; simp [remove_later_duplicates_by] at hy
  | cons x xs ih =>
    intro y hy
    simp only [remove_later_duplicates_by, List.mem_cons, List.mem_filter] at hy
    rcases hy with rfl | ⟨hy, _⟩
    · exact List.mem_cons_self _ _
    · exact List.mem_cons_of_mem _ (ih y hy)

theorem key_mem_remove_later_duplicates_by {α κ : Type} [DecidableEq κ] (key : α → κ) :
    ∀ (l : List α) (x : α), x ∈ l →
      ∃ y ∈ remove_later_duplicates_by key l, key y = key x := by
  intro l
  induction l with
  | nil => intro x hx; simp at hx
  | cons a as ih =>
    intro x hx
    by_cases hk : key x = key a
    · exact ⟨a, by simp [remove_later_duplicates_by], hk.symm⟩
    · rcases List.mem_cons.mp hx with rfl | hx
      · exact absurd rfl hk
      · obtain ⟨y, hy, hyk⟩ := ih x hx
        refine ⟨y, ?_, hyk⟩
        simp only [remove_later_duplicates_by, List.mem_cons, List.mem_filter]
        right
        exact ⟨hy, by simpa [hyk] using hk⟩

theorem remove_later_duplicates_by_keys_nodup {α κ : Type} [DecidableEq κ] (key : α → κ) :
    ∀ (l : List α), ((remove_later_duplicates_by key l).map key).Nodup := by
  intro l
  induction l with
  | nil => simp [remove_later_duplicates_by]
  | cons x xs ih =>
    simp only [remove_later_duplicates_by, List.map_cons, List.nodup_cons, List.mem_map,
      List.mem_filter]
    constructor
    · rintro ⟨y, ⟨_, hy⟩, hyx⟩
      simp at hy
      exact hy hyx
    · exact (ih.sublist ((List.filter_sublist _).map key))

theorem count_remove_later_duplicates (l : List Int) (h : Int) :
    (remove_later_duplicates_by id l).count h = if h ∈ l then 1 else 0 := by
  have hnd : (remove_later_duplicates_by id l).Nodup := by
    simpa using remove_later_duplicates_by_keys_nodup (id : Int → Int) l
  by_cases hm : h ∈ l
  · obtain ⟨y, hy, hyk⟩ := key_mem_remove_later_duplicates_by (id : Int → Int) l h hm
    simp only [id] at hyk
    subst hyk
    simp [hm, List.count_eq_one_of_mem hnd hy]
  · have : h ∉ remove_later_duplicates_by id l :=
      fun hc => hm (mem_of_mem_remove_later_duplicates_by id l h hc)
    simp [hm, List.count_eq_zero_of_not_mem this]

theorem foldl_traced_log {σ α : Type} (cb : change_callback_t σ) (id_of : α → Int)
    (path_of : α → Option Bytes) :
    ∀ (xs : List α) (data : σ) (log : List (Int × Option Bytes)),
      (xs.foldl (fun d x => (traced cb (id_of x) (path_of x) d).1) (data, log)).2 =
        log ++ xs.map (fun x => (id_of x, path_of x)) := by
  intro xs
  induction xs with
  | nil => intro data log; simp
  | cons x xs ih =>
    intro data log
    rw [List.foldl_cons]
    have h : (traced cb (id_of x) (path_of x) (data, log)).1 =
        ((cb (id_of x) (path_of x) data).1, log ++ [(id_of x, path_of x)]) := rfl
    rw [h, ih]
    simp

theorem foldl_never_stop_log {α : Type} (id_of : α → Int) (path_of : α → Option Bytes) :
    ∀ (xs : List α) (log : List (Int × Option Bytes)),
      xs.foldl (fun d x => (never_stop (id_of x) (path_of x) d).1) log =
        log ++ xs.map (fun x => (id_of x, path_of x)) := by
  intro xs
  induction xs with
  | nil => intro log; simp
  | cons x xs ih =>
    intro log
    rw [List.foldl_cons]
    have h : (never_stop (id_of x) (path_of x) log).1 = log ++ [(id_of x, path_of x)] := rfl
    rw [h, ih]
    simp

theorem inotify_translate_changes_fuel {σ : Type} (buffer : Bytes) (length : Int)
    (cb : change_callback_t σ) (data : σ) :
    inotify.translate_changes_dirmonitor buffer length cb data ≠
      .error Fault.out_of_fuel := by
  have hf := inotify.handles_loop_fuel buffer length length.toNat 0 (by omega)
  simp only [inotify.translate_changes_dirmonitor, inotify.translate_loop_eq_handles_fold]
  cases hl : inotify.handles_loop buffer length length.toNat 0 with
  | error e =>
    intro hc
    injection hc with hc
    exact hf (by rw [hl, hc])
  | ok wds => simp

theorem win32_translate_changes_fuel {σ : Type} (W : List Nat → Nat → Bytes)
    (buffer : Bytes) (length : Int) (cb : change_callback_t σ) (data : σ) :
    win32.translate_changes_dirmonitor W buffer length cb data ≠
      .error Fault.out_of_fuel := by
  have hf := win32.names_loop_fuel W buffer length length.toNat 0 (by omega)
  simp only [win32.translate_changes_dirmonitor, win32.translate_loop_eq_names_fold]
  cases hl : win32.names_loop W buffer length length.toNat 0 with
  | error e =>
    intro hc
    injection hc with hc
    exact hf (by rw [hl, hc])
  | ok names => simp

theorem inotify_translate_changes_returns {σ : Type} (buffer : Bytes) (length : Int)
    (cb : change_callback_t σ) (data : σ)
    (hlen : length ≤ buffer.length) (hcap : 16 ∣ buffer.length) :
    ∃ data1, inotify.translate_changes_dirmonitor buffer length cb data = .ok (data1, 0) := by
  obtain ⟨wds, hw⟩ := inotify.handles_loop_in_bounds buffer length hlen hcap length.toNat 0
    (by omega) (by omega)
  exact ⟨wds.foldl (fun d wd => (cb wd none d).1) data,
    by simp only [inotify.translate_changes_dirmonitor,
      inotify.translate_loop_eq_handles_fold, hw]⟩

theorem remove_later_duplicates_by_snoc {α κ : Type} [DecidableEq κ] (key : α → κ)
    (x : α) :
    ∀ (l : List α), remove_later_duplicates_by key (l ++ [x]) =
      remove_later_duplicates_by key l ++ (if key x ∈ l.map key then [] else [x]) := by
  intro l
  induction l with
  | nil => simp [remove_later_duplicates_by]
  | cons a l ih =>
    have hstep : remove_later_duplicates_by key (a :: l ++ [x]) =
        a :: (remove_later_duplicates_by key (l ++ [x])).filter
          (fun y => decide (key y ≠ key a)) := rfl
    have hcons : remove_later_duplicates_by key (a :: l) =
        a :: (remove_later_duplicates_by key l).filter
          (fun y => decide (key y ≠ key a)) := rfl
    rw [hstep, hcons, ih, List.filter_append, List.cons_append]
    congr 2
    by_cases hxa : key x = key a
    · simp [hxa]
    · by_cases hm : key x ∈ l.map key
      · simp [hm]
      · simp [hxa, hm]

/-! ## The claims -/

/-- C1: `f_dirmonitor_check` reports one of three outcomes, fixed by the pending length
alone. A negative length gives `nil` and an unchanged monitor; length 0 gives `false` and
an unchanged monitor; a positive length runs the backend's `translate_changes` on the
buffer with that length and the per-cycle callback over a fresh table, gives `true`, and
sets the length to exactly 0 when `translate_changes` returned 0 (the monitor is unchanged
when it returned another status). On the inotify backend with a buffer whose size is a
multiple of 16 the positive case always returns, with `true` and length 0. -/
theorem check_three_outcomes {ι H : Type} (callback : host_callback H)
    (monitor : dirmonitor ι H) (L : lua_State H) :
    (monitor.length < 0 →
      f_dirmonitor_check callback monitor L = .ok (check_return.nil, monitor, L)) ∧
    (monitor.length = 0 →
      f_dirmonitor_check callback monitor L = .ok (check_return.boolean false, monitor, L)) ∧
    (monitor.length > 0 →
      ∀ (L1 : lua_State H) (status : Int),
        monitor.backend.translate_changes monitor.internal monitor.buffer monitor.length
            (f_check_dir_callback callback) { L with notified := [] } = .ok (L1, status) →
        ∃ monitor1, f_dirmonitor_check callback monitor L =
            .ok (check_return.boolean true, monitor1, L1) ∧
          (status = 0 → monitor1 = { monitor with length := 0 } ∧ monitor1.length = 0) ∧
          (status ≠ 0 → monitor1 = monitor)) ∧
    (∀ (thread : Nat) (buffer : Bytes) (length : Int)
      (internal : inotify.dirmonitor_internal),
      0 < length → length ≤ buffer.length → 16 ∣ buffer.length →
      ∃ L1, f_dirmonitor_check callback
          { thread := thread, buffer := buffer, length := length,
            backend := dirmonitor_inotify H, internal := internal } L =
        .ok (check_return.boolean true,
          { thread := thread, buffer := buffer, length := 0,
            backend := dirmonitor_inotify H, internal := internal }, L1)) := by
  refine ⟨?_, ?_, ?_, ?_⟩
  · intro h
    simp [f_dirmonitor_check, h]
  · intro h
    simp [f_dirmonitor_check, h]
  · intro h L1 status ht
    have h1 : ¬ monitor.length < 0 := by omega
    by_cases hs : status = 0
    · exact ⟨{ monitor with length := 0 }, by simp [f_dirmonitor_check, h1, h, ht, hs],
        fun _ => ⟨rfl, rfl⟩, fun hc => absurd hs hc⟩
    · exact ⟨monitor, by simp [f_dirmonitor_check, h1, h, ht, hs],
        fun hc => absurd hc hs, fun _ => rfl⟩
  · intro thread buffer length internal hpos hlen hcap
    have hneg : ¬ length < 0 := by omega
    obtain ⟨L1, hL1⟩ := inotify_translate_changes_returns buffer length
      (f_check_dir_callback callback) { L with notified := [] } hlen hcap
    exact ⟨L1, by simp [f_dirmonitor_check, hneg, hpos, dirmonitor_inotify, hL1]⟩

theorem check_three_outcomes_witness :
    ∃ monitor1, f_dirmonitor_check (fun (h : Nat) _ => (h + 1, pcall_status.ok false))
        ({ thread := 1, buffer := inotify.encode [⟨5, 2, 0, []⟩], length := 16,
           backend := dirmonitor_inotify Nat, internal := ⟨3, 4, 5⟩ } :
          dirmonitor inotify.dirmonitor_internal Nat) ⟨0, [9], []⟩ =
        .ok (check_return.boolean true, monitor1, ⟨1, [5], [lua_Value.number 5]⟩) ∧
      ((0 : Int) = 0 → monitor1 =
          { thread := 1, buffer := inotify.encode [⟨5, 2, 0, []⟩], length := 0,
            backend := dirmonitor_inotify Nat, internal := ⟨3, 4, 5⟩ } ∧
        monitor1.length = 0) ∧
      ((0 : Int) ≠ 0 → monitor1 =
          { thread := 1, buffer := inotify.encode [⟨5, 2, 0, []⟩], length := 16,
            backend := dirmonitor_inotify Nat, internal := ⟨3, 4, 5⟩ }) :=
  (check_three_outcomes (fun (h : Nat) _ => (h + 1, pcall_status.ok false))
    ({ thread := 1, buffer := inotify.encode [⟨5, 2, 0, []⟩], length := 16,
       backend := dirmonitor_inotify Nat, internal := ⟨3, 4, 5⟩ } :
      dirmonitor inotify.dirmonitor_internal Nat) ⟨0, [9], []⟩).2.2.1 (by decide)
    ⟨1, [5], [lua_Value.number 5]⟩ 0 rfl

/-- C2: one `check` over a buffered batch of name-less inotify records invokes the host
callback on the batch's watch handles in order, later duplicates removed: each handle of
the batch exactly once, no other handle, whatever the callback returns or raises. The
host state after the check is the state the host callback produces when it is applied, in
that order, to the number of each kept handle; the log of its arguments is that same
sequence. -/
theorem check_dedups_handles {H : Type} (callback : host_callback H)
    (es : List inotify.event) (junk : Bytes) (thread : Nat)
    (internal : inotify.dirmonitor_internal) (L : lua_State H)
    (hes : ∀ e ∈ es, e.name = [] ∧ -2147483648 ≤ e.wd ∧ e.wd < 2147483648)
    (hne : es ≠ []) :
    ∃ L1, f_dirmonitor_check callback
        { thread := thread, buffer := inotify.encode es ++ junk,
          length := 16 * (es.length : Int), backend := dirmonitor_inotify H,
          internal := internal } L =
        .ok (check_return.boolean true,
          { thread := thread, buffer := inotify.encode es ++ junk, length := 0,
            backend := dirmonitor_inotify H, internal := internal }, L1) ∧
      L1.host = (remove_later_duplicates_by id (es.map (fun e => e.wd))).foldl
        (fun h wd => (callback h (lua_Value.number wd)).1) L.host ∧
      L1.calls = L.calls ++
        (remove_later_duplicates_by id (es.map (fun e => e.wd))).map lua_Value.number ∧
      ∀ h : Int, (remove_later_duplicates_by id (es.map (fun e => e.wd))).count h =
        if h ∈ es.map (fun e => e.wd) then 1 else 0 := by
  have hlen : 0 < es.length := List.length_pos.mpr hne
  have hpos : (16 * (es.length : Int)) > 0 := by omega
  have hneg : ¬ (16 * (es.length : Int)) < 0 := by omega
  have hloop := inotify.handles_loop_encode junk es hes [] (16 * (es.length : Int)).toNat
    (by omega)
  simp only [List.nil_append, List.length_nil, Nat.cast_zero, zero_add] at hloop
  refine ⟨(es.map (fun e => e.wd)).foldl
    (fun d wd => (f_check_dir_callback callback wd none d).1) { L with notified := [] },
    ?_, ?_, ?_, count_remove_later_duplicates _⟩
  · simp only [f_dirmonitor_check, hneg, hpos, if_true, if_false, dirmonitor_inotify,
      inotify.translate_changes_dirmonitor, inotify.translate_loop_eq_handles_fold, hloop]
  · have h := fold_check_host callback id (fun _ => none) (es.map (fun e => e.wd))
      { L with notified := [] }
    simpa [pushed_argument] using h
  · have h := fold_check_calls callback id (fun _ => none) (es.map (fun e => e.wd))
      { L with notified := [] }
    simpa [pushed_argument] using h

theorem check_dedups_handles_witness :
    ∃ L1, f_dirmonitor_check
        (fun (h : List lua_Value) v => (h ++ [v], pcall_status.error))
        { thread := 1,
          buffer := inotify.encode [⟨5, 2, 0, []⟩, ⟨5, 2, 0, []⟩, ⟨7, 256, 0, []⟩] ++ [1, 2],
          length := 16 * (([⟨5, 2, 0, []⟩, ⟨5, 2, 0, []⟩, ⟨7, 256, 0, []⟩] :
            List inotify.event).length : Int),
          backend := dirmonitor_inotify (List lua_Value), internal := ⟨3, 4, 5⟩ }
        ⟨[], [], []⟩ =
        .ok (check_return.boolean true,
          { thread := 1,
            buffer := inotify.encode [⟨5, 2, 0, []⟩, ⟨5, 2, 0, []⟩, ⟨7, 256, 0, []⟩] ++ [1, 2],
            length := 0, backend := dirmonitor_inotify (List lua_Value),
            internal := ⟨3, 4, 5⟩ }, L1) ∧
      L1.host = [lua_Value.number 5, lua_Value.number 7] ∧
      L1.calls = [lua_Value.number 5, lua_Value.number 7] := by
  obtain ⟨L1, h1, h2, h3, _⟩ := check_dedups_handles
    (fun (h : List lua_Value) v => (h ++ [v], pcall_status.error))
    [⟨5, 2, 0, []⟩, ⟨5, 2, 0, []⟩, ⟨7, 256, 0, []⟩] [1, 2] 1 ⟨3, 4, 5⟩ ⟨[], [], []⟩
    (by decide) (by decide)
  exact ⟨L1, h1, by rw [h2]; decide, by rw [h3]; decide⟩

/-- C3: `find_backend` over an ordered backend list: without a name it returns the first
backend (none for the empty list); with a name it returns the first backend whose name
equals the given one exactly, and none if and only if no backend of the list has that
name, in which case `f_dirmonitor_new` fails with an error. -/
theorem find_backend_first_match {ι H : Type} (backends : List (dirmonitor_backend ι H)) :
    find_backend backends none = backends.head? ∧
    (∀ name : String, find_backend backends (some name) =
        backends.find? (fun b => decide (b.name = name))) ∧
    (∀ name : String, find_backend backends (some name) = none ↔
        ∀ b ∈ backends, b.name ≠ name) ∧
    (∀ (name : String) (init_result : ι), (∀ b ∈ backends, b.name ≠ name) →
        f_dirmonitor_new backends (some name) init_result =
          .error ("Unable to find dirmonitor \x27" ++ name ++ "\x27")) := by
  have hfind : ∀ name : String, find_backend backends (some name) =
      backends.find? (fun b => decide (b.name = name)) := by
    intro name
    induction backends with
    | nil => simp [find_backend]
    | cons b bs ih =>
      by_cases hb : b.name = name
      · simp [find_backend, hb]
      · simp [find_backend, hb, ih]
  have hnone : ∀ name : String, find_backend backends (some name) = none ↔
      ∀ b ∈ backends, b.name ≠ name := by
    intro name
    rw [hfind, List.find?_eq_none]
    simp
  refine ⟨?_, hfind, hnone, ?_⟩
  · cases backends <;> simp [find_backend]
  · intro name init_result hn
    simp only [f_dirmonitor_new, (hnone name).mpr hn, Option.getD_some]

theorem find_backend_first_match_witness :
    find_backend [dirmonitor_inotify Unit,
        { dirmonitor_inotify Unit with name := "dummy" }] (some "nonexistent") = none ∧
    find_backend [dirmonitor_inotify Unit,
        { dirmonitor_inotify Unit with name := "dummy" }] (some "Inotify") = none :=
  ⟨((find_backend_first_match [dirmonitor_inotify Unit,
      { dirmonitor_inotify Unit with name := "dummy" }]).2.2.1 "nonexistent").mpr
    (by
      intro b hb
      simp only [List.mem_cons, List.mem_singleton, List.not_mem_nil, or_false] at hb
      rcases hb with rfl | rfl <;> decide),
   ((find_backend_first_match [dirmonitor_inotify Unit,
      { dirmonitor_inotify Unit with name := "dummy" }]).2.2.1 "Inotify").mpr
    (by
      intro b hb
      simp only [List.mem_cons, List.mem_singleton, List.not_mem_nil, or_false] at hb
      rcases hb with rfl | rfl <;> decide)⟩

/-- C4, evaluated on the code: a collection-thread iteration on the inotify backend that
starts at pending length 0 and whose `read` fails with -1 publishes -1 as the pending
length; the loop condition is then false and the next `check` reports `nil` (disposed),
although no disposal took place: -1 is the value `f_dirmonitor_gc` publishes. The state
is reached from a new monitor by one `watch` and one thread iteration. The win32
backend, whose `get_changes` answers 0 on a failed read, never publishes a negative
length. -/
theorem thread_read_failure_ends_monitor {H : Type} (callback : host_callback H)
    (thread : Nat) (buffer data : Bytes) (internal : inotify.dirmonitor_internal)
    (L : lua_State H) :
    (dirmonitor_check_thread_iteration
        { thread := thread, buffer := buffer, length := 0, backend := dirmonitor_inotify H,
          internal := internal }
        { data := data, result := -1, bytes_transferred := 0 }).length = -1 ∧
    dirmonitor_check_thread_continues
      (dirmonitor_check_thread_iteration
        { thread := thread, buffer := buffer, length := 0, backend := dirmonitor_inotify H,
          internal := internal }
        { data := data, result := -1, bytes_transferred := 0 }) = false ∧
    f_dirmonitor_check callback
      (dirmonitor_check_thread_iteration
        { thread := thread, buffer := buffer, length := 0, backend := dirmonitor_inotify H,
          internal := internal }
        { data := data, result := -1, bytes_transferred := 0 }) L =
      .ok (check_return.nil,
        { thread := thread, buffer := store data buffer, length := -1,
          backend := dirmonitor_inotify H, internal := internal }, L) ∧
    (f_dirmonitor_gc
      ({ thread := thread, buffer := buffer, length := 0, backend := dirmonitor_inotify H,
         internal := internal } : dirmonitor inotify.dirmonitor_internal H)).length = -1 ∧
    (∀ (path : String) (wd : Int) (t : Nat),
      ∃ fresh, f_dirmonitor_new [dirmonitor_inotify H] none internal = .ok fresh ∧
        (dirmonitor_check_thread_iteration (f_dirmonitor_watch fresh path wd t).2.1
          { data := data, result := -1, bytes_transferred := 0 }).length = -1) ∧
    ∀ (W : List Nat → Nat → Bytes) (win32_internal : win32.dirmonitor_internal)
      (os : os_read),
      0 ≤ (dirmonitor_check_thread_iteration
        { thread := thread, buffer := buffer, length := 0, backend := dirmonitor_win32 W H,
          internal := win32_internal } os).length := by
  refine ⟨?_, ?_, ?_, rfl, ?_, ?_⟩
  · simp [dirmonitor_check_thread_iteration, dirmonitor_inotify,
      inotify.get_changes_dirmonitor]
  · simp [dirmonitor_check_thread_iteration, dirmonitor_check_thread_continues,
      dirmonitor_inotify, inotify.get_changes_dirmonitor]
  · simp [dirmonitor_check_thread_iteration, f_dirmonitor_check, dirmonitor_inotify,
      inotify.get_changes_dirmonitor]
  · intro path wd t
    refine ⟨_, rfl, ?_⟩
    simp [dirmonitor_check_thread_iteration, f_dirmonitor_watch, dirmonitor_inotify,
      inotify.get_changes_dirmonitor]
  · intro W win32_internal os
    simp only [dirmonitor_check_thread_iteration, dirmonitor_win32,
      win32.get_changes_dirmonitor, if_true]
    split
    · split
      · exact le_refl _
      · exact Int.ofNat_nonneg _
    · exact le_refl _

/-- C6, evaluated on the code: for the well-formed batch of the single record
`wd = 5, mask = IN_CREATE, cookie = 0, len = 16, name = "a.txt"` (padded with NULs), the
inotify `translate_changes` calls `emit` twice, with 5 and then with 2020879969, the first
four bytes of the name read as a watch handle. On batches of records without a name the
emitted handles are the records' `wd` fields, in order. -/
theorem inotify_named_record_emits_name_bytes :
    (inotify.encode [⟨5, 256, 0, [97, 46, 116, 120, 116, 0, 0, 0, 0, 0, 0, 0, 0, 0, 0, 0]⟩]).length
      = 32 ∧
    inotify.translate_changes_dirmonitor
      (inotify.encode [⟨5, 256, 0, [97, 46, 116, 120, 116, 0, 0, 0, 0, 0, 0, 0, 0, 0, 0, 0]⟩])
      32 never_stop [] = .ok ([(5, none), (2020879969, none)], 0) ∧
    (∀ (es : List inotify.event) (junk : Bytes),
      (∀ e ∈ es, e.name = [] ∧ -2147483648 ≤ e.wd ∧ e.wd < 2147483648) →
      inotify.translate_changes_dirmonitor (inotify.encode es ++ junk)
        (16 * (es.length : Int)) never_stop [] =
        .ok (es.map (fun e => (e.wd, none)), 0)) := by
  refine ⟨rfl, rfl, ?_⟩
  intro es junk hes
  have hloop := inotify.handles_loop_encode junk es hes [] (16 * (es.length : Int)).toNat
    (by omega)
  simp only [List.nil_append, List.length_nil, Nat.cast_zero, zero_add] at hloop
  simp only [inotify.translate_changes_dirmonitor, inotify.translate_loop_eq_handles_fold,
    hloop]
  have h := foldl_never_stop_log id (fun _ => none) (es.map (fun e => e.wd)) []
  simp only [id, List.nil_append, List.map_map] at h
  rw [h]
  rfl

theorem watch_sequence_created_le {ι H : Type} :
    ∀ (calls : List (String × Int × Nat)) (monitor : dirmonitor ι H),
      (watch_sequence monitor calls).2.length ≤ (if monitor.thread = 0 then 1 else 0) := by
  intro calls
  induction calls with
  | nil => intro monitor; simp [watch_sequence]
  | cons c rest ih =>
    intro monitor
    obtain ⟨path, os_add, t⟩ := c
    by_cases hm : monitor.thread = 0
    · by_cases ht : t = 0
      · have h := ih (f_dirmonitor_watch monitor path os_add t).2.1
        simp only [f_dirmonitor_watch, hm, if_true, ht] at h
        simpa [watch_sequence, f_dirmonitor_watch, hm, ht, threads_created] using h
      · have h := ih (f_dirmonitor_watch monitor path os_add t).2.1
        simp only [f_dirmonitor_watch, hm, if_true, ht, if_false] at h
        simp only [watch_sequence, f_dirmonitor_watch, hm, ht, threads_created, if_true,
          if_false, List.length_append, List.length_singleton]
        omega
    · have h := ih (f_dirmonitor_watch monitor path os_add t).2.1
      simp only [f_dirmonitor_watch, hm, if_false] at h
      simpa [watch_sequence, f_dirmonitor_watch, hm, threads_created] using h

theorem watch_sequence_thread_kept {ι H : Type} :
    ∀ (calls : List (String × Int × Nat)) (monitor : dirmonitor ι H),
      monitor.thread ≠ 0 → (watch_sequence monitor calls).1.thread = monitor.thread := by
  intro calls
  induction calls with
  | nil => intro monitor _; rfl
  | cons c rest ih =>
    intro monitor hm
    obtain ⟨path, os_add, t⟩ := c
    have h := ih (f_dirmonitor_watch monitor path os_add t).2.1
    simp only [f_dirmonitor_watch, hm, if_false] at h
    simpa [watch_sequence, f_dirmonitor_watch, hm] using h hm

/-- C9: over any sequence of `watch` calls on a monitor, whatever the backend's `add`
returns, the collection thread is created at most once. A freshly constructed monitor has
no thread; a `watch` call on a monitor without thread calls `SDL_CreateThread` and stores
its result; a `watch` call on a monitor whose thread field is set creates no thread and
leaves the field unchanged. -/
theorem at_most_one_thread {ι H : Type} (monitor : dirmonitor ι H)
    (calls : List (String × Int × Nat)) :
    (watch_sequence monitor calls).2.length ≤ 1 ∧
    (monitor.thread ≠ 0 → (watch_sequence monitor calls).2 = [] ∧
      (watch_sequence monitor calls).1.thread = monitor.thread) ∧
    (∀ (path : String) (os_add : Int) (t : Nat), monitor.thread = 0 →
      (f_dirmonitor_watch monitor path os_add t).2.2 = some t ∧
      (f_dirmonitor_watch monitor path os_add t).2.1.thread = t) ∧
    (∀ (path : String) (os_add : Int) (t : Nat), monitor.thread ≠ 0 →
      (f_dirmonitor_watch monitor path os_add t).2.2 = none ∧
      (f_dirmonitor_watch monitor path os_add t).2.1.thread = monitor.thread) ∧
    (watch_sequence monitor []).2 = [] ∧
    (∀ (backends : List (dirmonitor_backend ι H)) (name : Option String) (init_result : ι)
      (fresh : dirmonitor ι H), f_dirmonitor_new backends name init_result = .ok fresh →
      fresh.thread = 0 ∧ (watch_sequence fresh []).1.thread = 0) := by
  refine ⟨?_, ?_, ?_, ?_, rfl, ?_⟩
  · have h := watch_sequence_created_le calls monitor
    split at h <;> omega
  · intro hm
    constructor
    · have h := watch_sequence_created_le calls monitor
      simp only [hm, if_false, Nat.le_zero, List.length_eq_zero] at h
      exact h
    · exact watch_sequence_thread_kept calls monitor hm
  · intro path os_add t hm
    simp [f_dirmonitor_watch, hm]
  · intro path os_add t hm
    simp [f_dirmonitor_watch, hm]
  · intro backends name init_result fresh hnew
    unfold f_dirmonitor_new at hnew
    split at hnew
    · cases hnew
    · injection hnew with hnew
      subst hnew
      exact ⟨rfl, rfl⟩

theorem at_most_one_thread_witness :
    (watch_sequence
      ({ thread := 0, buffer := [], length := 0, backend := dirmonitor_inotify Unit,
         internal := ⟨3, 4, 5⟩ } : dirmonitor inotify.dirmonitor_internal Unit)
      [("a", -1, 0), ("b", 1, 11), ("c", 2, 12)]).2 = [11] ∧
    (watch_sequence
      ({ thread := 0, buffer := [], length := 0, backend := dirmonitor_inotify Unit,
         internal := ⟨3, 4, 5⟩ } : dirmonitor inotify.dirmonitor_internal Unit)
      [("a", -1, 0), ("b", 1, 11), ("c", 2, 12)]).2.length ≤ 1 :=
  ⟨rfl, (at_most_one_thread
    ({ thread := 0, buffer := [], length := 0, backend := dirmonitor_inotify Unit,
       internal := ⟨3, 4, 5⟩ } : dirmonitor inotify.dirmonitor_internal Unit)
    [("a", -1, 0), ("b", 1, 11), ("c", 2, 12)]).1⟩

/-- C5, on the code: with an `emit` that asks to stop at every call, the inotify and the
win32 `translate_changes` still call it for every record and return status 0, and a
`check` whose host callback returns false still resets the pending length to 0. -/
theorem translate_does_not_stop_early :
    inotify.translate_changes_dirmonitor
      (inotify.encode [⟨5, 2, 0, []⟩, ⟨7, 2, 0, []⟩]) 32 always_stop [] =
      .ok ([(5, none), (7, none)], 0) ∧
    win32.translate_changes_dirmonitor win32.WideCharToMultiByte_utf8
      (win32.encode [⟨1, [97, 98]⟩, ⟨1, [99]⟩]) 32 always_stop [] =
      .ok ([(2, some [97, 98]), (1, some [99])], 0) ∧
    (match f_dirmonitor_check (fun (h : Nat) _ => (h + 1, pcall_status.ok false))
        ({ thread := 1, buffer := inotify.encode [⟨5, 2, 0, []⟩, ⟨7, 2, 0, []⟩], length := 32,
           backend := dirmonitor_inotify Nat, internal := ⟨3, 4, 5⟩ } :
          dirmonitor inotify.dirmonitor_internal Nat) ⟨0, [], []⟩ with
      | .ok r => (r.1, r.2.1.length, r.2.2.calls)
      | .error _ => (check_return.nil, 0, [])) =
      (check_return.boolean true, 0, [lua_Value.number 5, lua_Value.number 7]) :=
  ⟨rfl, rfl, rfl⟩

/-- C5 as amended: the inotify and the win32 `translate_changes` never stop early. For
every buffer, byte count, `emit` and state, the sequence of `emit` calls is the one made
under an `emit` that never asks to stop, and a returned status is always 0; so a `check`
at a positive pending length that returns leaves the pending length 0, also when the host
callback asks to stop. -/
theorem translate_ignores_emit_status {σ H : Type} (W : List Nat → Nat → Bytes)
    (buffer : Bytes) (length : Int) (cb : change_callback_t σ) (data : σ)
    (callback : host_callback H) (L : lua_State H) :
    (∀ r, inotify.translate_changes_dirmonitor buffer length cb data = .ok r → r.2 = 0) ∧
    (∀ r, win32.translate_changes_dirmonitor W buffer length cb data = .ok r → r.2 = 0) ∧
    Except.map (fun r => r.1.2)
        (inotify.translate_changes_dirmonitor buffer length (traced cb) (data, [])) =
      Except.map (fun r => r.1)
        (inotify.translate_changes_dirmonitor buffer length never_stop []) ∧
    Except.map (fun r => r.1.2)
        (win32.translate_changes_dirmonitor W buffer length (traced cb) (data, [])) =
      Except.map (fun r => r.1)
        (win32.translate_changes_dirmonitor W buffer length never_stop []) ∧
    (∀ (thread : Nat) (internal : inotify.dirmonitor_internal) r, 0 < length →
      f_dirmonitor_check callback
        { thread := thread, buffer := buffer, length := length,
          backend := dirmonitor_inotify H, internal := internal } L = .ok r →
      r.1 = check_return.boolean true ∧ r.2.1.length = 0) ∧
    (∀ (thread : Nat) (internal : win32.dirmonitor_internal) r, 0 < length →
      f_dirmonitor_check callback
        { thread := thread, buffer := buffer, length := length,
          backend := dirmonitor_win32 W H, internal := internal } L = .ok r →
      r.1 = check_return.boolean true ∧ r.2.1.length = 0) := by
  refine ⟨?_, ?_, ?_, ?_, ?_, ?_⟩
  · intro r hr
    unfold inotify.translate_changes_dirmonitor at hr
    split at hr
    · cases hr
    · injection hr with hr
      rw [← hr]
  · intro r hr
    unfold win32.translate_changes_dirmonitor at hr
    split at hr
    · cases hr
    · injection hr with hr
      rw [← hr]
  · simp only [inotify.translate_changes_dirmonitor, inotify.translate_loop_eq_handles_fold]
    cases inotify.handles_loop buffer length length.toNat 0 with
    | error e => rfl
    | ok wds =>
      exact congrArg Except.ok
        ((foldl_traced_log cb id (fun _ => none) wds data []).trans
          (foldl_never_stop_log id (fun _ => none) wds []).symm)
  · simp only [win32.translate_changes_dirmonitor, win32.translate_loop_eq_names_fold]
    cases win32.names_loop W buffer length length.toNat 0 with
    | error e => rfl
    | ok names =>
      exact congrArg Except.ok
        ((foldl_traced_log cb (fun tb => (tb.length : Int)) (fun tb => some tb) names data
          []).trans
          (foldl_never_stop_log (fun tb => (tb.length : Int)) (fun tb => some tb) names
            []).symm)
  · intro thread internal r hpos hr
    have hneg : ¬ length < 0 := by omega
    simp only [f_dirmonitor_check, hneg, hpos, if_true, if_false, gt_iff_lt, dirmonitor_inotify,
      inotify.translate_changes_dirmonitor] at hr
    split at hr
    · cases hr
    · rename_i r0 hr0
      split at hr0
      · cases hr0
      · injection hr0 with hr0
        injection hr with hr
        subst hr0
        subst hr
        exact ⟨rfl, rfl⟩
  · intro thread internal r hpos hr
    have hneg : ¬ length < 0 := by omega
    simp only [f_dirmonitor_check, hneg, hpos, if_true, if_false, gt_iff_lt, dirmonitor_win32,
      win32.translate_changes_dirmonitor] at hr
    split at hr
    · cases hr
    · rename_i r0 hr0
      split at hr0
      · cases hr0
      · injection hr0 with hr0
        injection hr with hr
        subst hr0
        subst hr
        exact ⟨rfl, rfl⟩

/-- C7, on the code: translation reads past the byte count. On a 1-byte inotify buffer the
handle is read from offsets 0 to 3, so the read at offset 1 is out of range; in a longer
buffer the bytes past the count decide the emitted handle. On a 12-byte win32 buffer whose
record says `FileNameLength = 4`, the name is read at offset 12, out of range. -/
theorem translate_reads_past_count :
    inotify.translate_changes_dirmonitor [5] 1 never_stop [] =
      .error (Fault.out_of_bounds 1) ∧
    inotify.translate_changes_dirmonitor [5, 1, 0, 0] 1 never_stop [] =
      .ok ([(261, none)], 0) ∧
    (le32 0 ++ le32 1 ++ le32 4).length = 12 ∧
    win32.translate_changes_dirmonitor win32.WideCharToMultiByte_utf8
      (le32 0 ++ le32 1 ++ le32 4) 12 never_stop [] = .error (Fault.out_of_bounds 12) :=
  ⟨rfl, rfl, rfl, rfl⟩

/-- C7 as amended: neither backend checks a record against the byte count, and reads stay
in range under these conditions. The inotify `translate_changes` returns without an
out-of-range read on every buffer content when the byte count is at most the buffer size
and the buffer size is a multiple of 16 (so all reads are below a byte count that is a
multiple of 16, and inside the 64512-byte buffer for every count). The win32
`translate_changes` returns without an out-of-range read on every well-formed batch of
records given with its exact byte count, whatever follows the batch in the buffer. Neither
loop runs out of the model's fuel, on any buffer. -/
theorem translate_in_bounds {σ : Type} (W : List Nat → Nat → Bytes) (buffer : Bytes)
    (length : Int) (cb : change_callback_t σ) (data : σ)
    (rs : List win32.notify_information) (junk : Bytes)
    (hlen : length ≤ buffer.length) (hcap : 16 ∣ buffer.length)
    (hne : rs ≠ []) (hwf : ∀ r ∈ rs, win32.well_formed r) :
    (∃ data1, inotify.translate_changes_dirmonitor buffer length cb data = .ok (data1, 0)) ∧
    win32.translate_changes_dirmonitor W (win32.encode rs ++ junk)
      ((win32.encode rs).length : Int) cb data =
      .ok ((rs.map (fun r => W r.FileName (win32.MAX_PATH * 4 - 1))).foldl
        (fun d tb => (cb (tb.length : Int) (some tb) d).1) data, 0) ∧
    inotify.translate_changes_dirmonitor buffer length cb data ≠ .error Fault.out_of_fuel ∧
    win32.translate_changes_dirmonitor W buffer length cb data ≠
      .error Fault.out_of_fuel := by
  refine ⟨inotify_translate_changes_returns buffer length cb data hlen hcap, ?_,
    inotify_translate_changes_fuel buffer length cb data,
    win32_translate_changes_fuel W buffer length cb data⟩
  have h := win32.names_loop_encode W junk rs hne hwf [] ((win32.encode rs).length)
    (win32.length_le_encode_length rs)
  simp only [List.nil_append, List.length_nil, Nat.cast_zero, zero_add] at h
  simp only [win32.translate_changes_dirmonitor, win32.translate_loop_eq_names_fold,
    Int.toNat_ofNat, h]

theorem translate_in_bounds_witness :
    (∃ data1, inotify.translate_changes_dirmonitor (inotify.encode [⟨5, 2, 0, []⟩]) 16
      never_stop [] = .ok (data1, 0)) ∧
    win32.translate_changes_dirmonitor win32.WideCharToMultiByte_utf8
      (win32.encode [⟨1, [97, 98]⟩] ++ [7, 7])
      ((win32.encode [⟨1, [97, 98]⟩]).length : Int) never_stop [] =
      .ok (([⟨1, [97, 98]⟩].map (fun r : win32.notify_information =>
          win32.WideCharToMultiByte_utf8 r.FileName (win32.MAX_PATH * 4 - 1))).foldl
        (fun d tb => (never_stop (tb.length : Int) (some tb) d).1) [], 0) :=
  have h := translate_in_bounds win32.WideCharToMultiByte_utf8
    (inotify.encode [⟨5, 2, 0, []⟩]) 16 never_stop [] [⟨1, [97, 98]⟩] [7, 7]
    (by decide) (by decide) (by decide)
    (by
      intro r hr
      rw [List.mem_singleton] at hr
      subst hr
      exact ⟨by decide, by decide, by decide⟩)
  ⟨h.1, h.2.1⟩

/-- C8, on the code: on the win32 backend, after `add` succeeded with handle 1 on the
directory handle 4660, `remove` with the other handle value 7 cancels and closes that
directory handle and clears the field; so does `unwatch` on the monitor. -/
theorem win32_remove_other_handle_closes :
    win32.add_dirmonitor ⟨0⟩ 4660 = (⟨4660⟩, [], 1) ∧
    win32.remove_dirmonitor (win32.add_dirmonitor ⟨0⟩ 4660).1 7 =
      (⟨0⟩, [win32.os_call.CancelIoEx 4660, win32.os_call.CloseHandle 4660]) ∧
    (f_dirmonitor_unwatch
      ({ thread := 1, buffer := [], length := 0,
         backend := dirmonitor_win32 win32.WideCharToMultiByte_utf8 Unit,
         internal := ⟨4660⟩ } : dirmonitor win32.dirmonitor_internal Unit) 7).internal
      = ⟨0⟩ := by
  refine ⟨by decide, by decide, by decide⟩

/-- C8 as amended: `unwatch` raises nothing and changes nothing of the monitor but the
backend state, through the backend's `remove`. On the win32 backend `remove` ignores the
handle value: whatever value is passed, it cancels and closes the open directory handle
and clears the field, it does nothing when no directory handle is open, and a second
`remove` has no further effect. On the inotify backend `remove` hands the value to
`inotify_rm_watch` and leaves the monitor's descriptors as they are. -/
theorem win32_remove_ignores_handle {ι H : Type} (monitor : dirmonitor ι H)
    (internal : win32.dirmonitor_internal) (inotify_internal : inotify.dirmonitor_internal)
    (fd fd2 : Int) :
    ((f_dirmonitor_unwatch monitor fd).thread = monitor.thread ∧
      (f_dirmonitor_unwatch monitor fd).buffer = monitor.buffer ∧
      (f_dirmonitor_unwatch monitor fd).length = monitor.length ∧
      (f_dirmonitor_unwatch monitor fd).backend = monitor.backend ∧
      (f_dirmonitor_unwatch monitor fd).internal =
        monitor.backend.remove monitor.internal fd) ∧
    win32.remove_dirmonitor internal fd = win32.remove_dirmonitor internal fd2 ∧
    (internal.handle ≠ 0 ∧ internal.handle ≠ win32.INVALID_HANDLE_VALUE →
      win32.remove_dirmonitor internal fd =
        (⟨0⟩, [win32.os_call.CancelIoEx internal.handle,
          win32.os_call.CloseHandle internal.handle])) ∧
    (internal.handle = 0 ∨ internal.handle = win32.INVALID_HANDLE_VALUE →
      win32.remove_dirmonitor internal fd = (internal, [])) ∧
    win32.remove_dirmonitor (win32.remove_dirmonitor internal fd).1 fd2 =
      ((win32.remove_dirmonitor internal fd).1, []) ∧
    inotify.remove_dirmonitor inotify_internal fd =
      (inotify_internal, [inotify.os_call.inotify_rm_watch inotify_internal.fd fd]) := by
  refine ⟨⟨rfl, rfl, rfl, rfl, rfl⟩, rfl, ?_, ?_, ?_, rfl⟩
  · intro h
    simp [win32.remove_dirmonitor, win32.close_monitor_handle, h]
  · intro h
    have hn : ¬ (internal.handle ≠ 0 ∧ internal.handle ≠ win32.INVALID_HANDLE_VALUE) := by
      rcases h with h | h <;> simp [h]
    simp only [win32.remove_dirmonitor, win32.close_monitor_handle, hn, if_false]
  · by_cases h : internal.handle ≠ 0 ∧ internal.handle ≠ win32.INVALID_HANDLE_VALUE
    · simp [win32.remove_dirmonitor, win32.close_monitor_handle, h]
    · simp only [win32.remove_dirmonitor, win32.close_monitor_handle, h, if_false]

theorem win32_remove_ignores_handle_witness :
    win32.remove_dirmonitor ⟨4660⟩ 1 =
      (⟨0⟩, [win32.os_call.CancelIoEx 4660, win32.os_call.CloseHandle 4660]) :=
  (win32_remove_ignores_handle
    ({ thread := 1, buffer := [], length := 0,
       backend := dirmonitor_win32 win32.WideCharToMultiByte_utf8 Unit,
       internal := ⟨4660⟩ } : dirmonitor win32.dirmonitor_internal Unit)
    ⟨4660⟩ ⟨3, 4, 5⟩ 1 7).2.2.1 (by decide)

/-- C10: on the win32 backend the per-cycle duplicate suppression is keyed by the byte
length of the converted name. One `check` over a well-formed batch calls the host callback
with the converted names of the records, in order, leaving out every name whose byte
length already occurred earlier in the batch (a name is reported if and only if no
earlier name of the batch has its byte length), and the host state afterwards is the one
the host callback produces when applied to these names in order; the lengths of the
reported names are pairwise distinct and every record's length is the length of a
reported name. For the
batch of the two records named "ab" and "cd" exactly one call is made, with "ab". -/
theorem win32_dedup_keyed_by_name_length {H : Type} (W : List Nat → Nat → Bytes)
    (callback : host_callback H) (rs : List win32.notify_information) (junk : Bytes)
    (thread : Nat) (internal : win32.dirmonitor_internal) (L : lua_State H)
    (hne : rs ≠ []) (hwf : ∀ r ∈ rs, win32.well_formed r) :
    (∃ L1, f_dirmonitor_check callback
        { thread := thread, buffer := win32.encode rs ++ junk,
          length := ((win32.encode rs).length : Int), backend := dirmonitor_win32 W H,
          internal := internal } L =
        .ok (check_return.boolean true,
          { thread := thread, buffer := win32.encode rs ++ junk, length := 0,
            backend := dirmonitor_win32 W H, internal := internal }, L1) ∧
      L1.calls = L.calls ++
        (remove_later_duplicates_by (fun tb : Bytes => (tb.length : Int))
          (rs.map (fun r => W r.FileName (win32.MAX_PATH * 4 - 1)))).map lua_Value.string ∧
      L1.host = (remove_later_duplicates_by (fun tb : Bytes => (tb.length : Int))
          (rs.map (fun r => W r.FileName (win32.MAX_PATH * 4 - 1)))).foldl
        (fun h tb => (callback h (lua_Value.string tb)).1) L.host) ∧
    ((remove_later_duplicates_by (fun tb : Bytes => (tb.length : Int))
        (rs.map (fun r => W r.FileName (win32.MAX_PATH * 4 - 1)))).map
      (fun tb : Bytes => (tb.length : Int))).Nodup ∧
    (∀ r ∈ rs, ∃ tb ∈ remove_later_duplicates_by (fun tb : Bytes => (tb.length : Int))
        (rs.map (fun r => W r.FileName (win32.MAX_PATH * 4 - 1))),
      tb.length = (W r.FileName (win32.MAX_PATH * 4 - 1)).length) ∧
    (∀ (earlier : List Bytes) (name : Bytes),
      remove_later_duplicates_by (fun tb : Bytes => (tb.length : Int)) (earlier ++ [name]) =
        remove_later_duplicates_by (fun tb : Bytes => (tb.length : Int)) earlier ++
          (if (name.length : Int) ∈ earlier.map (fun tb : Bytes => (tb.length : Int))
            then [] else [name])) ∧
    (match f_dirmonitor_check (fun (h : Nat) _ => (h + 1, pcall_status.ok true))
        ({ thread := 1, buffer := win32.encode [⟨1, [97, 98]⟩, ⟨1, [99, 100]⟩], length := 32,
           backend := dirmonitor_win32 win32.WideCharToMultiByte_utf8 Nat,
           internal := ⟨4660⟩ } : dirmonitor win32.dirmonitor_internal Nat) ⟨0, [], []⟩ with
      | .ok r => (r.2.2.calls, r.2.2.host)
      | .error _ => ([], 0)) = ([lua_Value.string [97, 98]], 1) := by
  have hlen : 0 < (win32.encode rs).length :=
    lt_of_lt_of_le (List.length_pos.mpr hne) (win32.length_le_encode_length rs)
  have hpos : ((win32.encode rs).length : Int) > 0 := by omega
  have hneg : ¬ ((win32.encode rs).length : Int) < 0 := by omega
  have hloop := win32.names_loop_encode W junk rs hne hwf [] (win32.encode rs).length
    (win32.length_le_encode_length rs)
  simp only [List.nil_append, List.length_nil, Nat.cast_zero, zero_add] at hloop
  refine ⟨⟨(rs.map (fun r => W r.FileName (win32.MAX_PATH * 4 - 1))).foldl
    (fun d tb => (f_check_dir_callback callback (tb.length : Int) (some tb) d).1)
    { L with notified := [] }, ?_, ?_, ?_⟩,
    remove_later_duplicates_by_keys_nodup _ _, ?_,
    fun earlier name => remove_later_duplicates_by_snoc _ name earlier, rfl⟩
  · simp only [f_dirmonitor_check, hneg, hpos, if_true, if_false, dirmonitor_win32,
      win32.translate_changes_dirmonitor, win32.translate_loop_eq_names_fold,
      Int.toNat_ofNat, hloop]
  · have h := fold_check_calls callback (fun tb : Bytes => (tb.length : Int))
      (fun tb => some tb) (rs.map (fun r => W r.FileName (win32.MAX_PATH * 4 - 1)))
      { L with notified := [] }
    simpa [pushed_argument] using h
  · have h := fold_check_host callback (fun tb : Bytes => (tb.length : Int))
      (fun tb => some tb) (rs.map (fun r => W r.FileName (win32.MAX_PATH * 4 - 1)))
      { L with notified := [] }
    simpa [pushed_argument] using h
  · intro r hr
    obtain ⟨tb, htb, hk⟩ := key_mem_remove_later_duplicates_by
      (fun tb : Bytes => (tb.length : Int))
      (rs.map (fun r => W r.FileName (win32.MAX_PATH * 4 - 1)))
      (W r.FileName (win32.MAX_PATH * 4 - 1)) (List.mem_map_of_mem _ hr)
    exact ⟨tb, htb, by exact_mod_cast hk⟩

theorem win32_dedup_keyed_by_name_length_witness :
    ∃ L1, f_dirmonitor_check
        (fun (h : List lua_Value) v => (h ++ [v], pcall_status.ok true))
        { thread := 1,
          buffer := win32.encode [⟨1, [97, 98]⟩, ⟨1, [99, 100]⟩, ⟨2, [101]⟩] ++ [7],
          length := ((win32.encode [⟨1, [97, 98]⟩, ⟨1, [99, 100]⟩, ⟨2, [101]⟩]).length : Int),
          backend := dirmonitor_win32 win32.WideCharToMultiByte_utf8 (List lua_Value),
          internal := ⟨4660⟩ } ⟨[], [], []⟩ =
        .ok (check_return.boolean true,
          { thread := 1,
            buffer := win32.encode [⟨1, [97, 98]⟩, ⟨1, [99, 100]⟩, ⟨2, [101]⟩] ++ [7],
            length := 0,
            backend := dirmonitor_win32 win32.WideCharToMultiByte_utf8 (List lua_Value),
            internal := ⟨4660⟩ }, L1) ∧
      L1.calls = [lua_Value.string [97, 98], lua_Value.string [101]] ∧
      L1.host = [lua_Value.string [97, 98], lua_Value.string [101]] := by
  obtain ⟨⟨L1, h1, h2, h3⟩, _⟩ := win32_dedup_keyed_by_name_length
    win32.WideCharToMultiByte_utf8
    (fun (h : List lua_Value) v => (h ++ [v], pcall_status.ok true))
    [⟨1, [97, 98]⟩, ⟨1, [99, 100]⟩, ⟨2, [101]⟩] [7] 1 ⟨4660⟩ ⟨[], [], []⟩
    (by decide)
    (by
      intro r hr
      simp only [List.mem_cons, List.mem_singleton, List.not_mem_nil, or_false] at hr
      rcases hr with rfl | rfl | rfl <;> exact ⟨by decide, by decide, by decide⟩)
  exact ⟨L1, h1, by rw [h2]; decide, by rw [h3]; decide⟩

end Dirmonitor
